import Mathlib

/-!
# Transaction pipeline of the bot client (`transaction.go`)

A shallow embedding of `SendTransaction`, `requestUnspentOutputsForRecipients`,
`buildRawTransaction`, `verifyRawTransactionBySequencer`, `signRawTransaction`
and `sendRawTransactionToSequencer`.

* Go `(value, error)` results are `Except Error value`; the one place where the
  code returns a value together with an error (`return ver, err`) is a `Reply`.
* `panic(...)` and run-time faults are the `Run.panicked` outcome.
* Collaborators that live outside `transaction.go` (the output listing, the
  ghost-key provider, the HTTP transport, the kernel codec, the hash and
  signature primitives) are fields of `Env`; every call the pipeline makes to a
  stage is recorded, in call order, in the `calls` of an `Exec`.
* `common.Integer` amounts are natural numbers, `Add`, `Cmp` and `Sign` their
  arithmetic. `Sub` panics on operands the library refuses and is the
  difference on all others; which operands it refuses is a field of `Env`.
-/

set_option autoImplicit false

namespace Bot

/-! ## Data model -/

/-- A byte string, one natural number below 256 per byte. -/
abbrev Bytes := List Nat

/-- `crypto.Hash`. -/
abbrev Hash := Bytes

/-- `crypto.Key`. -/
abbrev Key := Bytes

/-- `crypto.Signature`. -/
abbrev Signature := Bytes

/-- `TransactionRecipient`. -/
structure TransactionRecipient where
  MixAddress : String
  Amount : String
  Destination : String
  Tag : String
  deriving DecidableEq, Repr

/-- `SequencerTransactionRequest`. -/
structure SequencerTransactionRequest where
  RawTransaction : String
  State : String
  Views : List String
  deriving DecidableEq, Repr

/-- `KernelTransactionRequestCreateRequest`. -/
structure KernelTransactionRequestCreateRequest where
  RequestID : String
  Raw : String
  deriving DecidableEq, Repr

/-- The fields of `SafeUser` the pipeline reads. -/
structure SafeUser where
  UserId : String
  SessionId : String
  SessionKey : String
  SpendKey : String
  deriving DecidableEq, Repr

/-- The fields of an unspent `Output` the pipeline reads. -/
structure Output where
  TransactionHash : String
  OutputIndex : Nat
  Amount : String
  deriving DecidableEq, Repr

/-- The fields of `MixAddress` the pipeline reads. -/
structure MixAddress where
  Members : List String
  Threshold : Nat
  deriving DecidableEq, Repr

/-- `GhostKeys`, as the ghost-key provider returns them. -/
structure GhostKeys where
  Mask : String
  Keys : List String
  deriving DecidableEq, Repr

/-- The `Error` object of a response envelope. -/
structure ApiError where
  Code : Int
  Description : String
  deriving DecidableEq, Repr

/-- The response envelope `{data: [...], error}` of both sequencer endpoints;
an entry of `data` is a pointer and may be nil. -/
structure SequencerResponse where
  Data : List (Option SequencerTransactionRequest)
  Error : ApiError
  deriving DecidableEq, Repr

namespace common

/-- `common.Input`: a reference to an output of an earlier transaction. -/
structure Input where
  Hash : Hash
  Index : Nat
  deriving DecidableEq, Repr

/-- The two output types the builder emits. -/
inductive OutputType
  | Script
  | WithdrawalSubmit
  deriving DecidableEq, Repr

/-- `common.WithdrawalData`. -/
structure WithdrawalData where
  Address : String
  Tag : String
  deriving DecidableEq, Repr

/-- `common.Script`, the bytes of the script. -/
abbrev Script := Bytes

/-- `common.Output`, with the fields the builder sets; `Type_` is the field
`Type`, and a field the builder leaves out keeps its zero value. -/
structure Output where
  Type_ : OutputType
  Amount : Nat
  Keys : List Key
  Withdrawal : Option WithdrawalData
  Script : Script
  Mask : Key
  deriving DecidableEq, Repr

/-- `common.Transaction`, with the fields the pipeline reads or writes. -/
structure Transaction where
  Version : Nat
  Asset : Hash
  Inputs : List Input
  Outputs : List Output
  Extra : Bytes
  deriving DecidableEq, Repr

/-- `common.VersionedTransaction`: a transaction with its signature map, one
map from signer slot to signature per input. -/
structure VersionedTransaction where
  tx : Transaction
  SignaturesMap : List (List (Nat × Signature))
  deriving DecidableEq, Repr

/-- `common.NewTransactionV5`. -/
def NewTransactionV5 (asset : Hash) : Transaction :=
  { Version := 5, Asset := asset, Inputs := [], Outputs := [], Extra := [] }

/-- `Transaction.AddInput`. -/
def Transaction.AddInput (tx : Transaction) (h : Hash) (index : Nat) : Transaction :=
  { tx with Inputs := tx.Inputs ++ [{ Hash := h, Index := index }] }

/-- `Transaction.AsVersioned`. -/
def Transaction.AsVersioned (tx : Transaction) : VersionedTransaction :=
  { tx := tx, SignaturesMap := [] }

end common

deriving instance DecidableEq for Except

/-- The errors the pipeline returns. -/
inductive Error
  /-- `fmt.Errorf("invalid asset id %s", assetId)` -/
  | invalidAssetId (assetId : String)
  /-- `fmt.Errorf("insufficient outputs %s@%d %s", totalInput, len(outputs), totalOutput)` -/
  | insufficientOutputs (totalInput : Nat) (count : Nat) (totalOutput : Nat)
  /-- `errors.New("extra data is too long")` -/
  | extraTooLong
  /-- `fmt.Errorf("invalid mix address %s", r.MixAddress)` -/
  | invalidMixAddress (address : String)
  /-- `fmt.Errorf("invalid view keys count %d %d", len(str.Views), len(ver.Inputs))` -/
  | invalidViewKeysCount (views : Nat) (inputs : Nat)
  /-- `errors.New("invalid response size")` -/
  | invalidResponseSize
  /-- `BadDataError(ctx)` -/
  | badData
  /-- `ServerError(ctx, err)` -/
  | server (cause : String)
  /-- the `error` object of a response envelope, returned as is -/
  | api (e : ApiError)
  /-- an error of a collaborator or library call, returned as is -/
  | external (cause : String)
  deriving DecidableEq, Repr

/-- The stages of the pipeline whose invocation is recorded. -/
inductive Event
  | listUnspentOutputs (membersHash : String) (threshold : Nat) (assetId : String)
  | ghostKeys (address : MixAddress) (index : Nat)
  | verify (traceId : String) (raw : String)
  | sign (views : List String)
  | submit (traceId : String) (raw : String)
  deriving DecidableEq, Repr

/-- How a call ends: it returns, or the process panics. -/
inductive Run (α : Type)
  | done (a : α)
  | panicked (msg : String)
  deriving DecidableEq, Repr

/-- A finished call: the stage invocations it made, in order, and how it ended. -/
structure Exec (α : Type) where
  calls : List Event
  outcome : Run α
  deriving DecidableEq, Repr

/-- A Go result pair `(*T, error)` in which either side may be nil. -/
structure Reply (α : Type) where
  value : Option α
  err : Option Error
  deriving DecidableEq, Repr

/-- The collaborators of `transaction.go`: library primitives and the functions
of the package that are defined in other files. Errors they return are opaque
to the pipeline and carried as text. -/
structure Env where
  /-- `uuid.FromStringOrNil(s).String()` -/
  uuidString : String → String
  /-- `crypto.Sha256Hash([]byte(s)).String()` -/
  sha256String : String → String
  /-- `crypto.HashFromString` -/
  HashFromString : String → Option Hash
  /-- `crypto.KeyFromString` -/
  KeyFromString : String → Except String Key
  /-- `common.NewIntegerFromString` -/
  NewIntegerFromString : String → Nat
  /-- `Integer.String` -/
  IntegerString : Nat → String
  /-- `Integer.Sub`: whether the library refuses the minuend and the subtrahend,
  in which case the call panics; on operands it accepts the result is the
  difference -/
  IntegerSubRefuses : Nat → Nat → Bool
  /-- `common.NewThresholdScript` -/
  NewThresholdScript : Nat → common.Script
  /-- `hex.EncodeToString(ver.Marshal())` -/
  marshalHex : common.VersionedTransaction → String
  /-- `VersionedTransaction.PayloadHash` -/
  PayloadHash : common.VersionedTransaction → Hash
  /-- `sha512.Sum512` -/
  sha512 : Bytes → Bytes
  /-- `Key.Sign` -/
  Sign : Key → Hash → Signature
  /-- `json.Marshal` of the request array -/
  jsonMarshal : List KernelTransactionRequestCreateRequest → Except String String
  /-- `json.Unmarshal` of a response body -/
  jsonUnmarshal : String → Option SequencerResponse
  /-- `HashMembers` -/
  HashMembers : List String → String
  /-- `ListUnspentOutputs` -/
  ListUnspentOutputs : String → Nat → String → SafeUser → Except String (List Output)
  /-- `NewUUIDMixAddress(members, threshold).String()` -/
  uuidMixAddressString : List String → Nat → String
  /-- `NewMixAddressFromString` -/
  NewMixAddressFromString : String → Option MixAddress
  /-- `MixAddress.RequestOrGenerateGhostKeys` -/
  RequestOrGenerateGhostKeys : MixAddress → Nat → SafeUser → Except String GhostKeys
  /-- `GhostKeys.KeysSlice` -/
  KeysSlice : GhostKeys → List Key
  /-- `SignAuthenticationToken` -/
  SignAuthenticationToken : String → String → String → String → String → String → Except String String
  /-- `Request` -/
  Request : String → String → String → String → Except String String

/-! ## `requestUnspentOutputsForRecipients` -/

/-- The first loop of `requestUnspentOutputsForRecipients`: the recipients'
amounts added up, starting from the running total. -/
def sumRecipients (env : Env) : Nat → List TransactionRecipient → Nat
  | totalOutput, [] => totalOutput
  | totalOutput, r :: rest =>
      sumRecipients env (totalOutput + env.NewIntegerFromString r.Amount) rest

/-- The second loop of `requestUnspentOutputsForRecipients`, at index `i` with
`rest` still to visit: add the output's amount, go on while the total is below
the target, else return `outputs[:i+1]` and `totalInput.Sub(totalOutput)`,
which panics when the library refuses the operands. -/
def selectOutputs (env : Env) (outputs : List Output) (totalOutput : Nat) :
    Nat → Nat → List Output → Run (Except Error (List Output × Nat))
  | _, totalInput, [] =>
      .done (.error (.insufficientOutputs totalInput outputs.length totalOutput))
  | i, totalInput, o :: rest =>
      let totalInput := totalInput + env.NewIntegerFromString o.Amount
      if totalInput < totalOutput then
        selectOutputs env outputs totalOutput (i + 1) totalInput rest
      else if env.IntegerSubRefuses totalInput totalOutput then
        .panicked "Integer.Sub"
      else
        .done (.ok (outputs.take (i + 1), totalInput - totalOutput))

/-- `requestUnspentOutputsForRecipients`. -/
def requestUnspentOutputsForRecipients (env : Env) (assetId : String)
    (recipients : List TransactionRecipient) (u : SafeUser) :
    Exec (Except Error (List Output × Nat)) :=
  let totalOutput := sumRecipients env 0 recipients
  let membersHash := env.HashMembers [u.UserId]
  let calls := [Event.listUnspentOutputs membersHash 1 assetId]
  match env.ListUnspentOutputs membersHash 1 assetId u with
  | .error e => ⟨calls, .done (.error (.external e))⟩
  | .ok outputs => ⟨calls, selectOutputs env outputs totalOutput 0 0 outputs⟩

/-! ## `buildRawTransaction` -/

/-- `[]byte(s)`: the bytes of a string. -/
def stringBytes (s : String) : Bytes :=
  s.toUTF8.data.toList.map UInt8.toNat

/-- The zero value of `crypto.Key`. -/
def zeroKey : Key := List.replicate 32 0

/-- The input loop of `buildRawTransaction`: parse each hash, panic on a
malformed one, add the input reference. -/
def addInputs (env : Env) : common.Transaction → List Output → Run common.Transaction
  | tx, [] => .done tx
  | tx, inp :: rest =>
      match env.HashFromString inp.TransactionHash with
      | none => .panicked inp.TransactionHash
      | some h => addInputs env (tx.AddInput h inp.OutputIndex) rest

/-- The output a recipient with a destination gets. -/
def withdrawalOutput (env : Env) (r : TransactionRecipient) : common.Output :=
  { Type_ := .WithdrawalSubmit
    Amount := env.NewIntegerFromString r.Amount
    Keys := []
    Withdrawal := some { Address := r.Destination, Tag := r.Tag }
    Script := []
    Mask := zeroKey }

/-- The output a recipient without a destination gets. -/
def scriptOutput (env : Env) (r : TransactionRecipient) (ma : MixAddress)
    (ghost : GhostKeys) (mask : Key) : common.Output :=
  { Type_ := .Script
    Amount := env.NewIntegerFromString r.Amount
    Keys := env.KeysSlice ghost
    Withdrawal := none
    Script := env.NewThresholdScript ma.Threshold
    Mask := mask }

/-- The recipient loop of `buildRawTransaction`, at index `i`, with the
transaction built and the stage calls made so far. -/
def addOutputs (env : Env) (u : SafeUser) :
    Nat → List TransactionRecipient → common.Transaction → List Event →
      Exec (Except Error common.Transaction)
  | _, [], tx, calls => ⟨calls, .done (.ok tx)⟩
  | i, r :: rest, tx, calls =>
      if r.Destination ≠ "" then
        addOutputs env u (i + 1) rest
          { tx with Outputs := tx.Outputs ++ [withdrawalOutput env r] } calls
      else
        match env.NewMixAddressFromString r.MixAddress with
        | none => ⟨calls, .done (.error (.invalidMixAddress r.MixAddress))⟩
        | some ma =>
            let calls := calls ++ [Event.ghostKeys ma i]
            match env.RequestOrGenerateGhostKeys ma i u with
            | .error e => ⟨calls, .done (.error (.external e))⟩
            | .ok ghost =>
                match env.KeyFromString ghost.Mask with
                | .error _ => ⟨calls, .panicked ghost.Mask⟩
                | .ok mask =>
                    addOutputs env u (i + 1) rest
                      { tx with Outputs := tx.Outputs ++ [scriptOutput env r ma ghost mask] }
                      calls

/-- `buildRawTransaction`. -/
def buildRawTransaction (env : Env) (asset : Hash) (utxos : List Output)
    (recipients : List TransactionRecipient) (memo : String) (u : SafeUser) :
    Exec (Except Error common.Transaction) :=
  match addInputs env (common.NewTransactionV5 asset) utxos with
  | .panicked msg => ⟨[], .panicked msg⟩
  | .done tx =>
      if memo ≠ "" then
        let extraBytes := stringBytes memo
        if extraBytes.length > 512 then
          ⟨[], .done (.error .extraTooLong)⟩
        else
          addOutputs env u 0 recipients { tx with Extra := extraBytes } []
      else
        addOutputs env u 0 recipients tx []

/-! ## The two sequencer calls -/

/-- `verifyRawTransactionBySequencer`. -/
def verifyRawTransactionBySequencer (env : Env) (traceId : String)
    (ver : common.VersionedTransaction) (u : SafeUser) :
    Exec (Except Error (Option SequencerTransactionRequest)) :=
  let raw := env.marshalHex ver
  let result : Except Error (Option SequencerTransactionRequest) :=
    match env.jsonMarshal [{ RequestID := traceId, Raw := raw }] with
    | .error e => .error (.external e)
    | .ok data =>
        match env.SignAuthenticationToken u.UserId u.SessionId u.SessionKey
            "POST" "/safe/transaction/requests" data with
        | .error e => .error (.external e)
        | .ok token =>
            match env.Request "POST" "/safe/transaction/requests" data token with
            | .error e => .error (.server e)
            | .ok body =>
                match env.jsonUnmarshal body with
                | none => .error .badData
                | some resp =>
                    if resp.Error.Code > 0 then .error (.api resp.Error)
                    else
                      match resp.Data with
                      | [entry] => .ok entry
                      | _ => .error .invalidResponseSize
  ⟨[Event.verify traceId raw], .done result⟩

/-- `sendRawTransactionToSequencer`. -/
def sendRawTransactionToSequencer (env : Env) (traceId : String)
    (ver : common.VersionedTransaction) (u : SafeUser) :
    Exec (Except Error (Option SequencerTransactionRequest)) :=
  let raw := env.marshalHex ver
  let result : Except Error (Option SequencerTransactionRequest) :=
    match env.jsonMarshal [{ RequestID := traceId, Raw := raw }] with
    | .error e => .error (.external e)
    | .ok data =>
        match env.SignAuthenticationToken u.UserId u.SessionId u.SessionKey
            "POST" "/safe/transactions" data with
        | .error e => .error (.external e)
        | .ok token =>
            match env.Request "POST" "/safe/transactions" data token with
            | .error e => .error (.server e)
            | .ok body =>
                match env.jsonUnmarshal body with
                | none => .error .badData
                | some resp =>
                    if resp.Error.Code > 0 then .error (.api resp.Error)
                    else
                      match resp.Data with
                      | [entry] => .ok entry
                      | _ => .error .invalidResponseSize
  ⟨[Event.submit traceId raw], .done result⟩

/-! ## `signRawTransaction` -/

namespace edwards25519

/-- The order of the prime-order subgroup of edwards25519. -/
def groupOrder : Nat := 2 ^ 252 + 27742317777372353535851937790883648493

/-- The number a little-endian byte string encodes. -/
def leNat : Bytes → Nat
  | [] => 0
  | b :: rest => b + 256 * leNat rest

/-- The 32-byte little-endian encoding of a number. -/
def leBytes32 (n : Nat) : Bytes :=
  (List.range 32).map fun i => n / 256 ^ i % 256

/-- A scalar: a `Scalar` value of the library, held as its residue. -/
abbrev Scalar := Nat

/-- `Scalar.SetCanonicalBytes`: 32 bytes that encode a number below the order. -/
def SetCanonicalBytes (x : Bytes) : Except String Scalar :=
  if x.length ≠ 32 then .error "invalid scalar length"
  else if groupOrder ≤ leNat x then .error "invalid scalar encoding"
  else .ok (leNat x)

/-- The clamping of `SetBytesWithClamping`: clear the three low bits of the
first byte and the two high bits of the last, set the second-highest bit. -/
def clamp (x : Bytes) : Bytes :=
  let w := x.set 0 (x.getD 0 0 &&& 248)
  let w := w.set 31 (w.getD 31 0 &&& 63)
  w.set 31 (w.getD 31 0 ||| 64)

/-- `Scalar.SetBytesWithClamping`: 32 bytes, clamped, reduced modulo the order. -/
def SetBytesWithClamping (x : Bytes) : Except String Scalar :=
  if x.length ≠ 32 then .error "invalid SetBytesWithClamping input length"
  else .ok (leNat (clamp x) % groupOrder)

/-- `Scalar.Add`. -/
def Add (x y : Scalar) : Scalar := (x + y) % groupOrder

/-- `Scalar.Bytes`. -/
def Bytes (s : Scalar) : Bot.Bytes := leBytes32 s

end edwards25519

/-- The loop of `signRawTransaction`, at input `i`: decode view key `i`, add
the spend scalar, sign, and store the one-entry map at position `i`. -/
def signInputs (env : Env) (msg : Hash) (y : edwards25519.Scalar) (views : List String) :
    Nat → List common.Input → List (List (Nat × Signature)) →
      Run (Except Error (List (List (Nat × Signature))))
  | _, [], signaturesMap => .done (.ok signaturesMap)
  | i, _ :: rest, signaturesMap =>
      match views[i]? with
      | none => .panicked "index out of range"
      | some view =>
          match env.KeyFromString view with
          | .error e => .done (.error (.external e))
          | .ok viewBytes =>
              match edwards25519.SetCanonicalBytes viewBytes with
              | .error e => .done (.error (.external e))
              | .ok x =>
                  let t := edwards25519.Add x y
                  let key : Key := edwards25519.Bytes t
                  let sig := env.Sign key msg
                  signInputs env msg y views (i + 1) rest (signaturesMap.set i [(0, sig)])

/-- `signRawTransaction`. -/
def signRawTransaction (env : Env) (ver : common.VersionedTransaction)
    (views : List String) (spendKey : String) :
    Exec (Except Error common.VersionedTransaction) :=
  let calls := [Event.sign views]
  let msg := env.PayloadHash ver
  match env.KeyFromString spendKey with
  | .error e => ⟨calls, .done (.error (.external e))⟩
  | .ok spent =>
      let spenty := env.sha512 spent
      match edwards25519.SetBytesWithClamping (spenty.take 32) with
      | .error e => ⟨calls, .done (.error (.external e))⟩
      | .ok y =>
          match signInputs env msg y views 0 ver.tx.Inputs
              (List.replicate ver.tx.Inputs.length []) with
          | .panicked m => ⟨calls, .panicked m⟩
          | .done (.error e) => ⟨calls, .done (.error e)⟩
          | .done (.ok signaturesMap) =>
              ⟨calls, .done (.ok { ver with SignaturesMap := signaturesMap })⟩

/-! ## `SendTransaction` -/

/-- The recipient the change goes to: the sender's own one-member,
threshold-one address. -/
def changeRecipient (env : Env) (u : SafeUser) (changeAmount : Nat) : TransactionRecipient :=
  { MixAddress := env.uuidMixAddressString [u.UserId] 1
    Amount := env.IntegerString changeAmount
    Destination := ""
    Tag := "" }

/-- `SendTransaction`. -/
def SendTransaction (env : Env) (assetId : String) (recipients : List TransactionRecipient)
    (traceId : String) (memo : String) (u : SafeUser) :
    Exec (Reply common.VersionedTransaction) :=
  let assetId := if env.uuidString assetId = assetId then env.sha256String assetId else assetId
  match env.HashFromString assetId with
  | none => ⟨[], .done ⟨none, some (.invalidAssetId assetId)⟩⟩
  | some asset =>
      let sel := requestUnspentOutputsForRecipients env assetId recipients u
      match sel.outcome with
      | .panicked m => ⟨sel.calls, .panicked m⟩
      | .done (.error e) => ⟨sel.calls, .done ⟨none, some e⟩⟩
      | .done (.ok (utxos, changeAmount)) =>
          let recipients :=
            if changeAmount > 0 then recipients ++ [changeRecipient env u changeAmount]
            else recipients
          let built := buildRawTransaction env asset utxos recipients memo u
          match built.outcome with
          | .panicked m => ⟨sel.calls ++ built.calls, .panicked m⟩
          | .done (.error e) => ⟨sel.calls ++ built.calls, .done ⟨none, some e⟩⟩
          | .done (.ok tx) =>
              let ver := tx.AsVersioned
              let verified := verifyRawTransactionBySequencer env traceId ver u
              let calls := sel.calls ++ built.calls ++ verified.calls
              match verified.outcome with
              | .panicked m => ⟨calls, .panicked m⟩
              | .done (.error e) => ⟨calls, .done ⟨some ver, some e⟩⟩
              | .done (.ok none) => ⟨calls, .panicked "nil pointer dereference"⟩
              | .done (.ok (some str)) =>
                  if str.State ≠ "unspent" then ⟨calls, .done ⟨some ver, none⟩⟩
                  else if str.Views.length ≠ ver.tx.Inputs.length then
                    ⟨calls, .done ⟨none,
                      some (.invalidViewKeysCount str.Views.length ver.tx.Inputs.length)⟩⟩
                  else
                    let signed := signRawTransaction env ver str.Views u.SpendKey
                    let calls := calls ++ signed.calls
                    match signed.outcome with
                    | .panicked m => ⟨calls, .panicked m⟩
                    | .done (.error e) => ⟨calls, .done ⟨none, some e⟩⟩
                    | .done (.ok ver) =>
                        let sent := sendRawTransactionToSequencer env traceId ver u
                        let calls := calls ++ sent.calls
                        match sent.outcome with
                        | .panicked m => ⟨calls, .panicked m⟩
                        | .done (.error e) => ⟨calls, .done ⟨none, some e⟩⟩
                        | .done (.ok none) => ⟨calls, .panicked "nil pointer dereference"⟩
                        | .done (.ok (some str)) =>
                            if env.marshalHex ver ≠ str.RawTransaction then
                              ⟨calls, .panicked str.RawTransaction⟩
                            else ⟨calls, .done ⟨some ver, none⟩⟩

/-! ## Vocabulary of the statements -/

/-- The amount of an unspent output, as the selection reads it. -/
def outputAmount (env : Env) (o : Output) : Nat :=
  env.NewIntegerFromString o.Amount

/-- The amount of a recipient, as selection and builder read it. -/
def recipientAmount (env : Env) (r : TransactionRecipient) : Nat :=
  env.NewIntegerFromString r.Amount

/-- The cumulative amount of the first `k` unspent outputs. -/
def prefixAmount (env : Env) (outputs : List Output) (k : Nat) : Nat :=
  ((outputs.take k).map (outputAmount env)).sum

/-- The target of a selection: the recipients' amounts added up. -/
def targetAmount (env : Env) (recipients : List TransactionRecipient) : Nat :=
  (recipients.map (recipientAmount env)).sum

/-- The position index a ghost-key call carries. -/
def Event.ghostIndex : Event → Option Nat
  | .ghostKeys _ i => some i
  | _ => none

/-- The position indices passed to ghost-key resolution, in call order. -/
def ghostIndices (calls : List Event) : List Nat :=
  calls.filterMap Event.ghostIndex

/-- The positions, counted from `i`, of the recipients without a destination. -/
def scriptPositions : Nat → List TransactionRecipient → List Nat
  | _, [] => []
  | i, r :: rest =>
      if r.Destination ≠ "" then scriptPositions (i + 1) rest
      else i :: scriptPositions (i + 1) rest

/-- What it means for `out` to be the output of recipient `r` at position `i`:
a withdrawal output with the destination and tag when `r` has a destination,
else a script output with the threshold of the parsed mix address and the mask
and keys resolved for position `i`. -/
def IsOutputOf (env : Env) (u : SafeUser) (i : Nat) (r : TransactionRecipient)
    (out : common.Output) : Prop :=
  out.Amount = recipientAmount env r ∧
  (r.Destination ≠ "" →
    out.Type_ = .WithdrawalSubmit ∧
      out.Withdrawal = some { Address := r.Destination, Tag := r.Tag }) ∧
  (r.Destination = "" →
    ∃ ma ghost mask,
      env.NewMixAddressFromString r.MixAddress = some ma ∧
      env.RequestOrGenerateGhostKeys ma i u = .ok ghost ∧
      env.KeyFromString ghost.Mask = .ok mask ∧
      out.Type_ = .Script ∧ out.Withdrawal = none ∧
      out.Script = env.NewThresholdScript ma.Threshold ∧
      out.Mask = mask ∧ out.Keys = env.KeysSlice ghost)

/-- The asset id `SendTransaction` works with: the hash text of a UUID asset
id, any other asset id as given. -/
def resolvedAssetId (env : Env) (assetId : String) : String :=
  if env.uuidString assetId = assetId then env.sha256String assetId else assetId

/-- The recipients `SendTransaction` hands to the builder for a given change. -/
def recipientsWithChange (env : Env) (u : SafeUser) (recipients : List TransactionRecipient)
    (changeAmount : Nat) : List TransactionRecipient :=
  if changeAmount > 0 then recipients ++ [changeRecipient env u changeAmount] else recipients

/-- The run of `SendTransaction` gets as far as the verify call: the asset id
is valid, selection returns `utxos` and `changeAmount`, the build returns `tx`,
and the verify call on the unsigned `tx` ends with `reply`. -/
def ReachesVerify (env : Env) (assetId : String) (recipients : List TransactionRecipient)
    (traceId : String) (memo : String) (u : SafeUser) (utxos : List Output)
    (changeAmount : Nat) (tx : common.Transaction)
    (reply : Except Error (Option SequencerTransactionRequest)) : Prop :=
  ∃ asset, env.HashFromString (resolvedAssetId env assetId) = some asset ∧
    (requestUnspentOutputsForRecipients env (resolvedAssetId env assetId) recipients u).outcome =
      .done (.ok (utxos, changeAmount)) ∧
    (buildRawTransaction env asset utxos (recipientsWithChange env u recipients changeAmount)
      memo u).outcome = .done (.ok tx) ∧
    (verifyRawTransactionBySequencer env traceId tx.AsVersioned u).outcome = .done reply

/-- Whether a recorded call is an invocation of the signer. -/
def Event.isSign : Event → Bool
  | .sign _ => true
  | _ => false

/-- Whether a recorded call is the submit call. -/
def Event.isSubmit : Event → Bool
  | .submit _ _ => true
  | _ => false

/-! ## A concrete environment

A small world to run the pipeline in: an amount is the length of its text,
`Sub` refuses a zero subtrahend and a subtrahend above the minuend, a key is
the little-endian bytes of the length of its text, the listing returns a fixed
list, and both sequencer endpoints answer with one entry carrying a fixed
state, fixed view keys and an echo computed from the raw transaction sent. -/

/-- What the network of the concrete environment answers. -/
structure World where
  outputs : List Output
  state : String
  views : List String
  echo : String → String

/-- The concrete environment over a world. -/
def sampleEnv (w : World) : Env where
  uuidString := fun _ => "00000000-0000-0000-0000-000000000000"
  sha256String := fun s => s
  HashFromString := fun s => if s = "" then none else some [s.length]
  KeyFromString := fun s =>
    if s = "" then .error "invalid key" else .ok (edwards25519.leBytes32 s.length)
  NewIntegerFromString := fun s => s.length
  IntegerString := fun n => String.mk (List.replicate n '1')
  IntegerSubRefuses := fun x y => decide (y = 0 ∨ x < y)
  NewThresholdScript := fun t => [255, 254, t]
  marshalHex := fun ver => String.mk (List.replicate ver.SignaturesMap.length 's')
  PayloadHash := fun ver => [ver.tx.Inputs.length]
  sha512 := fun b => b ++ b
  Sign := fun key msg => key ++ msg
  jsonMarshal := fun reqs => .ok (String.join (reqs.map fun r => r.Raw))
  jsonUnmarshal := fun body =>
    some { Data := [some { RawTransaction := w.echo body, State := w.state, Views := w.views }]
           Error := { Code := 0, Description := "" } }
  HashMembers := fun members => String.join members
  ListUnspentOutputs := fun _ _ _ _ => .ok w.outputs
  uuidMixAddressString := fun _ _ => "self"
  NewMixAddressFromString := fun s =>
    if s = "" then none else some { Members := [s], Threshold := 1 }
  RequestOrGenerateGhostKeys := fun ma _ _ => .ok { Mask := "m", Keys := ma.Members }
  KeysSlice := fun g => g.Keys.map fun s => edwards25519.leBytes32 s.length
  SignAuthenticationToken := fun _ _ _ _ _ _ => .ok "token"
  Request := fun _ _ data _ => .ok data

/-- A user of the concrete environment. -/
def sampleUser : SafeUser :=
  { UserId := "u", SessionId := "s", SessionKey := "k", SpendKey := "spend" }

/-- An unspent output whose amount is `n`. -/
def sampleOutput (n : Nat) : Output :=
  { TransactionHash := "h", OutputIndex := 0, Amount := String.mk (List.replicate n '1') }

/-- A recipient of amount `n` at a mix address. -/
def scriptRecipient (n : Nat) : TransactionRecipient :=
  { MixAddress := "ma", Amount := String.mk (List.replicate n '1'), Destination := "", Tag := "" }

/-- A recipient of amount `n` at an external destination. -/
def withdrawalRecipient (n : Nat) : TransactionRecipient :=
  { MixAddress := "", Amount := String.mk (List.replicate n '1'), Destination := "d", Tag := "t" }

/-- A world that lists the given amounts and answers `unspent` with an honest echo. -/
def worldOf (amounts : List Nat) (views : List String) : World :=
  { outputs := amounts.map sampleOutput, state := "unspent", views := views, echo := fun s => s }

/-- A memo of `n` bytes. -/
def memoOfSize (n : Nat) : String :=
  String.mk (List.replicate n 'a')

/-- The transaction the concrete environment builds from one unspent output of
amount 5, a withdrawal of 2, a script payment of 3 and the memo `hi`. -/
def sampleTx : common.Transaction :=
  { Version := 5
    Asset := [5]
    Inputs := [{ Hash := [1], Index := 0 }]
    Outputs :=
      [{ Type_ := .WithdrawalSubmit, Amount := 2, Keys := [],
         Withdrawal := some { Address := "d", Tag := "t" }, Script := [], Mask := zeroKey },
       { Type_ := .Script, Amount := 3, Keys := [edwards25519.leBytes32 2],
         Withdrawal := none, Script := [255, 254, 1], Mask := edwards25519.leBytes32 1 }]
    Extra := [104, 105] }

/-- The transaction `sampleTx` as the concrete environment signs it with the
view key `v` and the spend key of `sampleUser`: the spend scalar is the clamped
`5` (that is `2 ^ 254`) reduced, the view scalar is `1`. -/
def sampleSigned : common.VersionedTransaction :=
  { tx := sampleTx
    SignaturesMap :=
      [[(0, edwards25519.leBytes32
              ((1 + 2 ^ 254 % edwards25519.groupOrder) % edwards25519.groupOrder) ++ [1])]] }

/-- A world whose sequencer reports the transaction as already spent. -/
def spentWorld : World :=
  { outputs := [sampleOutput 5], state := "spent", views := ["a", "b", "c"], echo := fun s => s }

/-- A world whose sequencer echoes a raw transaction other than the one sent. -/
def tamperWorld : World :=
  { outputs := [sampleOutput 5], state := "unspent", views := ["v"], echo := fun s => s ++ "!" }

/-- The transaction the concrete environment builds from three unspent outputs
of amount 1 and one script payment of 3. -/
def sampleTx3 : common.Transaction :=
  { Version := 5
    Asset := [5]
    Inputs := [{ Hash := [1], Index := 0 }, { Hash := [1], Index := 0 }, { Hash := [1], Index := 0 }]
    Outputs :=
      [{ Type_ := .Script, Amount := 3, Keys := [edwards25519.leBytes32 2],
         Withdrawal := none, Script := [255, 254, 1], Mask := edwards25519.leBytes32 1 }]
    Extra := [104, 105] }

/-! ## Theorems -/

/-! ### Output selection -/

theorem sumRecipients_eq (env : Env) (recipients : List TransactionRecipient) (acc : Nat) :
    sumRecipients env acc recipients = acc + targetAmount env recipients := by
  induction recipients generalizing acc with
  | nil => simp [sumRecipients, targetAmount]
  | cons r rest ih =>
      simp only [sumRecipients, ih, targetAmount, List.map_cons, List.sum_cons, recipientAmount]
      omega

theorem prefixAmount_succ (env : Env) (outputs : List Output) (i : Nat) (o : Output)
    (rest : List Output) (h : outputs.drop i = o :: rest) :
    prefixAmount env outputs (i + 1) = prefixAmount env outputs i + outputAmount env o := by
  have hlt : i < outputs.length := by
    by_contra hge
    rw [List.drop_of_length_le (by omega)] at h
    cases h
  have ho : outputs[i] = o := by
    have := List.drop_eq_getElem_cons hlt
    rw [this] at h
    exact (List.cons.inj h).1
  unfold prefixAmount
  rw [List.take_succ, List.getElem?_eq_getElem hlt, ho]
  simp

theorem drop_succ_of_drop (outputs : List Output) (i : Nat) (o : Output)
    (rest : List Output) (h : outputs.drop i = o :: rest) :
    outputs.drop (i + 1) = rest ∧ i < outputs.length := by
  have hlt : i < outputs.length := by
    by_contra hge
    rw [List.drop_of_length_le (by omega)] at h
    cases h
  refine ⟨?_, hlt⟩
  rw [List.drop_eq_getElem_cons hlt] at h
  exact (List.cons.inj h).2

/-- The selection loop, from any point of the scan: it stops at the first index
past `i` whose cumulative amount reaches the target, where it subtracts, or
fails when none does. -/
theorem selectOutputs_scan (env : Env) (outputs : List Output) (T : Nat) :
    ∀ (rest : List Output) (i : Nat), outputs.drop i = rest →
      (∃ k, i < k ∧ k ≤ outputs.length ∧ T ≤ prefixAmount env outputs k ∧
          (∀ j, i < j → j < k → prefixAmount env outputs j < T) ∧
          selectOutputs env outputs T i (prefixAmount env outputs i) rest =
            if env.IntegerSubRefuses (prefixAmount env outputs k) T then
              .panicked "Integer.Sub"
            else .done (.ok (outputs.take k, prefixAmount env outputs k - T))) ∨
      ((∀ j, i < j → j ≤ outputs.length → prefixAmount env outputs j < T) ∧
          selectOutputs env outputs T i (prefixAmount env outputs i) rest =
            .done (.error (.insufficientOutputs (prefixAmount env outputs outputs.length)
              outputs.length T))) := by
  intro rest
  induction rest with
  | nil =>
      intro i h
      right
      have hge : outputs.length ≤ i := by
        have := congrArg List.length h
        simp at this
        omega
      refine ⟨fun j h1 h2 => by omega, ?_⟩
      have : prefixAmount env outputs i = prefixAmount env outputs outputs.length := by
        unfold prefixAmount
        rw [List.take_of_length_le hge, List.take_of_length_le (le_refl _)]
      simp [selectOutputs, this]
  | cons o rest ih =>
      intro i h
      obtain ⟨hdrop, hlt⟩ := drop_succ_of_drop outputs i o rest h
      have hsucc := prefixAmount_succ env outputs i o rest h
      unfold selectOutputs
      simp only [outputAmount] at hsucc
      rw [← hsucc]
      by_cases hc : prefixAmount env outputs (i + 1) < T
      · simp only [hc, if_true]
        rcases ih (i + 1) hdrop with ⟨k, hk1, hk2, hk3, hk4, hk5⟩ | ⟨hall, hres⟩
        · left
          refine ⟨k, by omega, hk2, hk3, ?_, hk5⟩
          intro j hj1 hj2
          by_cases hj : j = i + 1
          · subst hj; exact hc
          · exact hk4 j (by omega) hj2
        · right
          refine ⟨?_, hres⟩
          intro j hj1 hj2
          by_cases hj : j = i + 1
          · subst hj; exact hc
          · exact hall j (by omega) hj2
      · simp only [hc, if_false]
        left
        exact ⟨i + 1, by omega, by omega, by omega, fun j h1 h2 => by omega, rfl⟩

/-- C1 (amended): with the listing returning `O`, `T` the sum of the
recipients' amounts, and a library `Sub` that accepts a positive subtrahend not
above the minuend, `requestUnspentOutputsForRecipients` makes the one listing
call and, for `T > 0`, returns the shortest prefix of `O` whose cumulative
amount is at least `T`, with change = cumulative amount - `T`; it fails, with
the insufficient-outputs error reporting the total of `O`, its length and `T`,
exactly when no prefix reaches `T`; it does not panic, reorder or trim. For
`T = 0` and an empty `O` it fails with the insufficient-outputs error. -/
theorem requestUnspentOutputs_first_fit (env : Env) (assetId : String)
    (recipients : List TransactionRecipient) (u : SafeUser) (O : List Output)
    (hlist : env.ListUnspentOutputs (env.HashMembers [u.UserId]) 1 assetId u = .ok O)
    (hsub : ∀ x y, 0 < y → y ≤ x → env.IntegerSubRefuses x y = false) :
    (requestUnspentOutputsForRecipients env assetId recipients u).calls =
        [Event.listUnspentOutputs (env.HashMembers [u.UserId]) 1 assetId] ∧
    (0 < targetAmount env recipients →
      (∀ sel change,
        (requestUnspentOutputsForRecipients env assetId recipients u).outcome =
            .done (.ok (sel, change)) ↔
          ∃ k, k ≤ O.length ∧ targetAmount env recipients ≤ prefixAmount env O k ∧
            (∀ j, j < k → prefixAmount env O j < targetAmount env recipients) ∧
            sel = O.take k ∧ change = prefixAmount env O k - targetAmount env recipients) ∧
      (∀ e,
        (requestUnspentOutputsForRecipients env assetId recipients u).outcome =
            .done (.error e) ↔
          e = .insufficientOutputs (prefixAmount env O O.length) O.length
                (targetAmount env recipients) ∧
            ∀ k, k ≤ O.length → prefixAmount env O k < targetAmount env recipients) ∧
      (∀ m, (requestUnspentOutputsForRecipients env assetId recipients u).outcome ≠
          .panicked m)) ∧
    (targetAmount env recipients = 0 → O = [] →
      (requestUnspentOutputsForRecipients env assetId recipients u).outcome =
        .done (.error (.insufficientOutputs 0 0 0))) := by
  have hT : sumRecipients env 0 recipients = targetAmount env recipients := by
    rw [sumRecipients_eq]; omega
  have h0 : prefixAmount env O 0 = 0 := by simp [prefixAmount]
  have hout : (requestUnspentOutputsForRecipients env assetId recipients u).outcome =
      selectOutputs env O (targetAmount env recipients) 0 (prefixAmount env O 0) O := by
    simp [requestUnspentOutputsForRecipients, hlist, hT, h0]
  have hcalls : (requestUnspentOutputsForRecipients env assetId recipients u).calls =
      [Event.listUnspentOutputs (env.HashMembers [u.UserId]) 1 assetId] := by
    simp [requestUnspentOutputsForRecipients, hlist]
  refine ⟨hcalls, ?_, ?_⟩
  · intro hpos
    have hscan := selectOutputs_scan env O (targetAmount env recipients) O 0 rfl
    refine ⟨?_, ?_, ?_⟩
    · intro sel change
      rw [hout]
      rcases hscan with ⟨k, hk1, hk2, hk3, hk4, hk5⟩ | ⟨hall, hres⟩
      · rw [hk5, if_neg (by simp [hsub _ _ hpos hk3])]
        constructor
        · intro h
          injection h with h
          injection h with h
          injection h with h1 h2
          refine ⟨k, hk2, hk3, ?_, h1.symm, h2.symm⟩
          intro j hj
          rcases Nat.eq_zero_or_pos j with hz | hp
          · subst hz; omega
          · exact hk4 j hp hj
        · rintro ⟨k', h2, h3, h4, h5, h6⟩
          have hk' : 0 < k' := by
            rcases Nat.eq_zero_or_pos k' with hz | hp
            · subst hz; omega
            · exact hp
          have hkk : k' = k := by
            rcases Nat.lt_trichotomy k' k with hlt | heq | hgt
            · have := hk4 k' hk' hlt; omega
            · exact heq
            · have := h4 k hgt; omega
          subst hkk
          rw [h5, h6]
      · rw [hres]
        constructor
        · intro h
          injection h with h
          cases h
        · rintro ⟨k', h2, h3, _⟩
          rcases Nat.eq_zero_or_pos k' with hz | hp
          · subst hz; omega
          · have := hall k' hp h2
            omega
    · intro e
      rw [hout]
      rcases hscan with ⟨k, hk1, hk2, hk3, hk4, hk5⟩ | ⟨hall, hres⟩
      · rw [hk5, if_neg (by simp [hsub _ _ hpos hk3])]
        constructor
        · intro h
          injection h with h
          cases h
        · rintro ⟨_, h⟩
          have := h k hk2
          omega
      · rw [hres]
        constructor
        · intro h
          injection h with h
          injection h with h
          refine ⟨h.symm, ?_⟩
          intro k hk
          rcases Nat.eq_zero_or_pos k with hz | hp
          · subst hz; omega
          · exact hall k hp hk
        · rintro ⟨h, _⟩
          rw [h]
    · intro m
      rw [hout]
      rcases hscan with ⟨k, hk1, hk2, hk3, hk4, hk5⟩ | ⟨hall, hres⟩
      · rw [hk5, if_neg (by simp [hsub _ _ hpos hk3])]
        intro h
        cases h
      · rw [hres]
        intro h
        cases h
  · intro hzero hO
    subst hO
    rw [hout, hzero]
    rfl

/-- C1, the example of the specification: outputs 5, 3, 2 and target 6 select
the outputs 5, 3 with change 2. -/
theorem requestUnspentOutputs_first_fit_witness :
    (requestUnspentOutputsForRecipients (sampleEnv (worldOf [5, 3, 2] [])) "asset"
        [scriptRecipient 6] sampleUser).outcome =
      .done (.ok ([sampleOutput 5, sampleOutput 3], 2)) :=
  (((requestUnspentOutputs_first_fit (sampleEnv (worldOf [5, 3, 2] [])) "asset"
      [scriptRecipient 6] sampleUser [sampleOutput 5, sampleOutput 3, sampleOutput 2] rfl
      (fun x y h1 h2 => by
        simp only [sampleEnv, decide_eq_false_iff_not]
        omega)).2.1 (by decide)).1
      [sampleOutput 5, sampleOutput 3] 2).mpr
    ⟨2, by decide, by decide,
      fun j h => by
        have hj : j = 0 ∨ j = 1 := by omega
        rcases hj with hj | hj <;> subst hj <;> decide,
      by decide, by decide⟩

/-- C1 as stated fails at target 0 with no outputs listed: the empty prefix has
cumulative amount 0, which reaches the target, yet the call fails with the
insufficient-outputs error. -/
theorem requestUnspentOutputs_empty_prefix_counterexample :
    targetAmount (sampleEnv (worldOf [] [])) [] ≤
        prefixAmount (sampleEnv (worldOf [] [])) (worldOf [] []).outputs 0 ∧
      (requestUnspentOutputsForRecipients (sampleEnv (worldOf [] [])) "asset" []
          sampleUser).outcome = .done (.error (.insufficientOutputs 0 0 0)) := by
  decide

/-! ### The builder -/

/-- The input loop keeps everything but the inputs, and appends one reference
per unspent output, in order. -/
theorem addInputs_done (env : Env) :
    ∀ (utxos : List Output) (tx tx' : common.Transaction),
      addInputs env tx utxos = .done tx' →
        tx'.Version = tx.Version ∧ tx'.Asset = tx.Asset ∧ tx'.Outputs = tx.Outputs ∧
        tx'.Extra = tx.Extra ∧
        ∃ ins, tx'.Inputs = tx.Inputs ++ ins ∧
          List.Forall₂ (fun (o : Output) (inp : common.Input) =>
            env.HashFromString o.TransactionHash = some inp.Hash ∧
              inp.Index = o.OutputIndex) utxos ins := by
  intro utxos
  induction utxos with
  | nil =>
      intro tx tx' h
      simp only [addInputs, Run.done.injEq] at h
      subst h
      exact ⟨rfl, rfl, rfl, rfl, [], by simp, List.Forall₂.nil⟩
  | cons o rest ih =>
      intro tx tx' h
      unfold addInputs at h
      cases hh : env.HashFromString o.TransactionHash with
      | none => simp [hh] at h
      | some hash =>
          simp only [hh] at h
          obtain ⟨h1, h2, h3, h4, ins, h5, h6⟩ := ih _ _ h
          refine ⟨h1, h2, h3, h4, ⟨hash, o.OutputIndex⟩ :: ins, ?_, ?_⟩
          · rw [h5]
            simp [common.Transaction.AddInput]
          · exact List.Forall₂.cons ⟨hh, rfl⟩ h6

/-- With well-formed hashes the input loop does not panic. -/
theorem addInputs_total (env : Env) :
    ∀ (utxos : List Output) (tx : common.Transaction),
      (∀ o ∈ utxos, (env.HashFromString o.TransactionHash).isSome) →
        ∃ tx', addInputs env tx utxos = .done tx' := by
  intro utxos
  induction utxos with
  | nil => intro tx _; exact ⟨tx, rfl⟩
  | cons o rest ih =>
      intro tx h
      have ho := h o (List.mem_cons_self _ _)
      obtain ⟨hash, hh⟩ := Option.isSome_iff_exists.mp ho
      unfold addInputs
      simp only [hh]
      exact ih _ (fun o' ho' => h o' (List.mem_cons_of_mem _ ho'))

/-- The calls of the recipient loop: only ghost-key calls are added, their
indices are an initial part of the script positions, and all of them when the
loop runs to the end. -/
theorem addOutputs_calls (env : Env) (u : SafeUser) :
    ∀ (rs : List TransactionRecipient) (i : Nat) (tx : common.Transaction)
      (calls : List Event),
      ∃ evs, (addOutputs env u i rs tx calls).calls = calls ++ evs ∧
        (∀ ev ∈ evs, ∃ ma j, ev = Event.ghostKeys ma j) ∧
        ghostIndices evs <+: scriptPositions i rs ∧
        (∀ tx', (addOutputs env u i rs tx calls).outcome = .done (.ok tx') →
          ghostIndices evs = scriptPositions i rs) := by
  intro rs
  induction rs with
  | nil =>
      intro i tx calls
      exact ⟨[], by simp [addOutputs], by simp, by simp [ghostIndices],
        by simp [ghostIndices, scriptPositions]⟩
  | cons r rest ih =>
      intro i tx calls
      unfold addOutputs scriptPositions
      by_cases hd : r.Destination ≠ ""
      · simp only [if_pos hd]
        exact ih _ _ _
      · simp only [if_neg hd]
        cases hma : env.NewMixAddressFromString r.MixAddress with
        | none =>
            exact ⟨[], by simp, by simp, by simp [ghostIndices], by simp⟩
        | some ma =>
            simp only []
            cases hg : env.RequestOrGenerateGhostKeys ma i u with
            | error e =>
                refine ⟨[Event.ghostKeys ma i], rfl, ?_, ?_, ?_⟩
                · intro ev hev
                  simp only [List.mem_singleton] at hev
                  exact ⟨ma, i, hev⟩
                · simp [ghostIndices, Event.ghostIndex]
                · intro tx' h
                  simp at h
            | ok ghost =>
                simp only []
                cases hk : env.KeyFromString ghost.Mask with
                | error e =>
                    refine ⟨[Event.ghostKeys ma i], rfl, ?_, ?_, ?_⟩
                    · intro ev hev
                      simp only [List.mem_singleton] at hev
                      exact ⟨ma, i, hev⟩
                    · simp [ghostIndices, Event.ghostIndex]
                    · intro tx' h
                      simp at h
                | ok mask =>
                    simp only []
                    obtain ⟨evs, h1, h2, h3, h4⟩ := ih (i + 1)
                      { tx with Outputs := tx.Outputs ++ [scriptOutput env r ma ghost mask] }
                      (calls ++ [Event.ghostKeys ma i])
                    refine ⟨Event.ghostKeys ma i :: evs, ?_, ?_, ?_, ?_⟩
                    · rw [h1]; simp
                    · intro ev hev
                      rcases List.mem_cons.mp hev with h | h
                      · exact ⟨ma, i, h⟩
                      · exact h2 ev h
                    · simpa [ghostIndices, Event.ghostIndex] using h3
                    · intro tx' h
                      have := h4 tx' h
                      simpa [ghostIndices, Event.ghostIndex] using this

/-- A recipient loop that runs to the end keeps everything but the outputs and
appends one output per recipient, in order, each the output of its recipient at
its position. -/
theorem addOutputs_ok (env : Env) (u : SafeUser) :
    ∀ (rs : List TransactionRecipient) (i : Nat) (tx tx' : common.Transaction)
      (calls : List Event),
      (addOutputs env u i rs tx calls).outcome = .done (.ok tx') →
        tx'.Version = tx.Version ∧ tx'.Asset = tx.Asset ∧ tx'.Inputs = tx.Inputs ∧
        tx'.Extra = tx.Extra ∧
        ∃ outs, tx'.Outputs = tx.Outputs ++ outs ∧ outs.length = rs.length ∧
          ∀ j r, rs[j]? = some r →
            ∃ out, outs[j]? = some out ∧ IsOutputOf env u (i + j) r out := by
  intro rs
  induction rs with
  | nil =>
      intro i tx tx' calls h
      simp only [addOutputs, Run.done.injEq, Except.ok.injEq] at h
      subst h
      exact ⟨rfl, rfl, rfl, rfl, [], by simp, rfl, by simp⟩
  | cons r rest ih =>
      intro i tx tx' calls h
      unfold addOutputs at h
      by_cases hd : r.Destination ≠ ""
      · simp only [if_pos hd] at h
        obtain ⟨h1, h2, h3, h4, outs, h5, h6, h7⟩ := ih _ _ _ _ h
        refine ⟨h1, h2, h3, h4, withdrawalOutput env r :: outs, ?_, ?_, ?_⟩
        · rw [h5]; simp
        · simp [h6]
        · intro j r' hj
          cases j with
          | zero =>
              simp only [List.getElem?_cons_zero, Option.some.injEq] at hj
              subst hj
              refine ⟨withdrawalOutput env r, by simp, rfl, ?_, ?_⟩
              · intro _; exact ⟨rfl, rfl⟩
              · intro h0; exact absurd h0 hd
          | succ j =>
              simp only [List.getElem?_cons_succ] at hj
              obtain ⟨out, ho1, ho2⟩ := h7 j r' hj
              refine ⟨out, by simpa using ho1, ?_⟩
              have : i + (j + 1) = i + 1 + j := by omega
              rw [this]; exact ho2
      · simp only [if_neg hd] at h
        cases hma : env.NewMixAddressFromString r.MixAddress with
        | none => simp [hma] at h
        | some ma =>
            simp only [hma] at h
            cases hg : env.RequestOrGenerateGhostKeys ma i u with
            | error e => simp [hg] at h
            | ok ghost =>
                simp only [hg] at h
                cases hk : env.KeyFromString ghost.Mask with
                | error e => simp [hk] at h
                | ok mask =>
                    simp only [hk] at h
                    obtain ⟨h1, h2, h3, h4, outs, h5, h6, h7⟩ := ih _ _ _ _ h
                    refine ⟨h1, h2, h3, h4, scriptOutput env r ma ghost mask :: outs, ?_, ?_, ?_⟩
                    · rw [h5]; simp
                    · simp [h6]
                    · intro j r' hj
                      cases j with
                      | zero =>
                          simp only [List.getElem?_cons_zero, Option.some.injEq] at hj
                          subst hj
                          refine ⟨scriptOutput env r ma ghost mask, by simp, rfl, ?_, ?_⟩
                          · intro h0; exact absurd h0 hd
                          · intro _
                            exact ⟨ma, ghost, mask, hma, hg, hk, rfl, rfl, rfl, rfl, rfl⟩
                      | succ j =>
                          simp only [List.getElem?_cons_succ] at hj
                          obtain ⟨out, ho1, ho2⟩ := h7 j r' hj
                          refine ⟨out, by simpa using ho1, ?_⟩
                          have : i + (j + 1) = i + 1 + j := by omega
                          rw [this]; exact ho2

/-- The recipient loop never fails with the extra-too-long error. -/
theorem addOutputs_error (env : Env) (u : SafeUser) :
    ∀ (rs : List TransactionRecipient) (i : Nat) (tx : common.Transaction)
      (calls : List Event) (e : Error),
      (addOutputs env u i rs tx calls).outcome = .done (.error e) →
        e ≠ .extraTooLong := by
  intro rs
  induction rs with
  | nil =>
      intro i tx calls e h
      simp [addOutputs] at h
  | cons r rest ih =>
      intro i tx calls e h
      unfold addOutputs at h
      by_cases hd : r.Destination ≠ ""
      · simp only [if_pos hd] at h
        exact ih _ _ _ _ h
      · simp only [if_neg hd] at h
        cases hma : env.NewMixAddressFromString r.MixAddress with
        | none =>
            simp only [hma, Run.done.injEq, Except.error.injEq] at h
            rw [← h]; simp
        | some ma =>
            simp only [hma] at h
            cases hg : env.RequestOrGenerateGhostKeys ma i u with
            | error e' =>
                simp only [hg, Run.done.injEq, Except.error.injEq] at h
                rw [← h]; simp
            | ok ghost =>
                simp only [hg] at h
                cases hk : env.KeyFromString ghost.Mask with
                | error e' => simp [hk] at h
                | ok mask =>
                    simp only [hk] at h
                    exact ih _ _ _ _ h

theorem stringBytes_empty : stringBytes "" = [] := by decide

/-- The builder, with the memo test written once: after the input loop, a memo
of more than 512 bytes fails, any other memo becomes the extra field and the
recipient loop runs. -/
theorem buildRawTransaction_eq (env : Env) (asset : Hash) (utxos : List Output)
    (recipients : List TransactionRecipient) (memo : String) (u : SafeUser) :
    buildRawTransaction env asset utxos recipients memo u =
      match addInputs env (common.NewTransactionV5 asset) utxos with
      | .panicked msg => ⟨[], .panicked msg⟩
      | .done tx =>
          if 512 < (stringBytes memo).length then ⟨[], .done (.error .extraTooLong)⟩
          else addOutputs env u 0 recipients { tx with Extra := stringBytes memo } [] := by
  unfold buildRawTransaction
  cases hin : addInputs env (common.NewTransactionV5 asset) utxos with
  | panicked msg => rfl
  | done tx =>
      simp only []
      by_cases hm : memo = ""
      · subst hm
        have hextra : tx.Extra = [] := (addInputs_done env utxos _ _ hin).2.2.2.1
        have htx : ({ tx with Extra := stringBytes "" } : common.Transaction) = tx := by
          rw [stringBytes_empty, ← hextra]
        rw [htx]
        simp [stringBytes_empty]
      · simp only [ne_eq, hm, not_false_eq_true, if_true, gt_iff_lt]

theorem scriptPositions_mem :
    ∀ (rs : List TransactionRecipient) (i j : Nat),
      j ∈ scriptPositions i rs ↔
        i ≤ j ∧ ∃ r, rs[j - i]? = some r ∧ r.Destination = "" := by
  intro rs
  induction rs with
  | nil => intro i j; simp [scriptPositions]
  | cons r rest ih =>
      intro i j
      unfold scriptPositions
      by_cases hd : r.Destination ≠ ""
      · simp only [if_pos hd, ih]
        constructor
        · rintro ⟨h1, r', h2, h3⟩
          refine ⟨by omega, r', ?_, h3⟩
          have : j - i = (j - (i + 1)) + 1 := by omega
          rw [this, List.getElem?_cons_succ]
          exact h2
        · rintro ⟨h1, r', h2, h3⟩
          have hne : j ≠ i := by
            intro h
            subst h
            simp only [Nat.sub_self, List.getElem?_cons_zero, Option.some.injEq] at h2
            subst h2
            exact hd h3
          refine ⟨by omega, r', ?_, h3⟩
          have : j - i = (j - (i + 1)) + 1 := by omega
          rw [this, List.getElem?_cons_succ] at h2
          exact h2
      · simp only [if_neg hd, List.mem_cons, ih]
        have hd' : r.Destination = "" := not_not.mp hd
        constructor
        · rintro (h | ⟨h1, r', h2, h3⟩)
          · subst h
            exact ⟨le_refl _, r, by simp, hd'⟩
          · refine ⟨by omega, r', ?_, h3⟩
            have : j - i = (j - (i + 1)) + 1 := by omega
            rw [this, List.getElem?_cons_succ]
            exact h2
        · rintro ⟨h1, r', h2, h3⟩
          by_cases hji : j = i
          · exact Or.inl hji
          · right
            refine ⟨by omega, r', ?_, h3⟩
            have : j - i = (j - (i + 1)) + 1 := by omega
            rw [this, List.getElem?_cons_succ] at h2
            exact h2

theorem scriptPositions_pairwise :
    ∀ (rs : List TransactionRecipient) (i : Nat),
      List.Pairwise (fun a b => a < b) (scriptPositions i rs) := by
  intro rs
  induction rs with
  | nil => intro i; simp [scriptPositions]
  | cons r rest ih =>
      intro i
      unfold scriptPositions
      by_cases hd : r.Destination ≠ ""
      · simp only [if_pos hd]
        exact ih _
      · simp only [if_neg hd, List.pairwise_cons]
        refine ⟨?_, ih _⟩
        intro j hj
        have := (scriptPositions_mem rest (i + 1) j).mp hj
        omega

theorem scriptPositions_length :
    ∀ (rs : List TransactionRecipient) (i : Nat),
      (scriptPositions i rs).length =
        (rs.filter fun r => decide (r.Destination = "")).length := by
  intro rs
  induction rs with
  | nil => intro i; simp [scriptPositions]
  | cons r rest ih =>
      intro i
      unfold scriptPositions
      by_cases hd : r.Destination ≠ ""
      · simp only [if_pos hd, ih]
        have : decide (r.Destination = "") = false := by simpa using hd
        simp [List.filter_cons, this]
      · simp only [if_neg hd, List.length_cons, ih]
        have : decide (r.Destination = "") = true := by simpa using hd
        simp [List.filter_cons, this]

theorem scriptPositions_all_script :
    ∀ (rs : List TransactionRecipient) (i : Nat),
      (∀ r ∈ rs, r.Destination = "") →
        scriptPositions i rs = List.range' i rs.length := by
  intro rs
  induction rs with
  | nil => intro i _; simp [scriptPositions]
  | cons r rest ih =>
      intro i h
      unfold scriptPositions
      have hd : ¬ r.Destination ≠ "" := by
        simpa using h r (List.mem_cons_self _ _)
      simp only [if_neg hd, List.length_cons, List.range'_succ]
      rw [ih (i + 1) (fun r' hr' => h r' (List.mem_cons_of_mem _ hr'))]

theorem ghostIndices_length_of_all_ghost (evs : List Event)
    (h : ∀ ev ∈ evs, ∃ ma j, ev = Event.ghostKeys ma j) :
    (ghostIndices evs).length = evs.length := by
  induction evs with
  | nil => rfl
  | cons ev rest ih =>
      obtain ⟨ma, j, hev⟩ := h ev (List.mem_cons_self _ _)
      subst hev
      have := ih (fun ev' hev' => h ev' (List.mem_cons_of_mem _ hev'))
      simpa [ghostIndices, Event.ghostIndex] using this

/-- The calls of the builder: ghost-key calls only, at an initial part of the
script positions, and at all of them when the build succeeds. -/
theorem buildRawTransaction_calls (env : Env) (asset : Hash) (utxos : List Output)
    (recipients : List TransactionRecipient) (memo : String) (u : SafeUser) :
    (∀ ev ∈ (buildRawTransaction env asset utxos recipients memo u).calls,
        ∃ ma j, ev = Event.ghostKeys ma j) ∧
      ghostIndices (buildRawTransaction env asset utxos recipients memo u).calls <+:
        scriptPositions 0 recipients ∧
      (∀ tx, (buildRawTransaction env asset utxos recipients memo u).outcome =
          .done (.ok tx) →
        ghostIndices (buildRawTransaction env asset utxos recipients memo u).calls =
          scriptPositions 0 recipients) := by
  rw [buildRawTransaction_eq]
  cases hin : addInputs env (common.NewTransactionV5 asset) utxos with
  | panicked msg =>
      exact ⟨by simp, by simp [ghostIndices], by simp⟩
  | done tx0 =>
      simp only []
      by_cases hm : 512 < (stringBytes memo).length
      · simp only [if_pos hm]
        exact ⟨by simp, by simp [ghostIndices], by simp⟩
      · simp only [if_neg hm]
        obtain ⟨evs, h1, h2, h3, h4⟩ :=
          addOutputs_calls env u recipients 0 { tx0 with Extra := stringBytes memo } []
        rw [h1]
        simp only [List.nil_append]
        exact ⟨h2, h3, h4⟩

/-- C7: with well-formed input hashes `buildRawTransaction` returns the
extra-too-long error if and only if the memo has more than 512 bytes, and then
it has made no ghost-key call; whenever it returns a transaction, the extra
field is exactly the memo's bytes and has at most 512 of them. -/
theorem buildRawTransaction_extra_limit (env : Env) (asset : Hash) (utxos : List Output)
    (recipients : List TransactionRecipient) (memo : String) (u : SafeUser)
    (hwf : ∀ o ∈ utxos, (env.HashFromString o.TransactionHash).isSome) :
    ((buildRawTransaction env asset utxos recipients memo u).outcome =
        .done (.error .extraTooLong) ↔ 512 < (stringBytes memo).length) ∧
    (512 < (stringBytes memo).length →
      (buildRawTransaction env asset utxos recipients memo u).calls = []) ∧
    (∀ tx, (buildRawTransaction env asset utxos recipients memo u).outcome = .done (.ok tx) →
      tx.Extra = stringBytes memo ∧ tx.Extra.length ≤ 512) := by
  obtain ⟨tx0, hin⟩ := addInputs_total env utxos (common.NewTransactionV5 asset) hwf
  rw [buildRawTransaction_eq, hin]
  simp only []
  by_cases hm : 512 < (stringBytes memo).length
  · simp only [if_pos hm]
    exact ⟨by simp [hm], fun _ => trivial, by simp⟩
  · simp only [if_neg hm]
    refine ⟨?_, fun h => absurd h hm, ?_⟩
    · constructor
      · intro h
        exact absurd rfl (addOutputs_error env u recipients 0 _ [] _ h)
      · intro h
        exact absurd h hm
    · intro tx h
      have h4 := (addOutputs_ok env u recipients 0 _ tx [] h).2.2.2.1
      simp only at h4
      rw [h4]
      exact ⟨rfl, by omega⟩

set_option maxRecDepth 100000 in
/-- C7 at the boundary: a memo of 513 bytes is rejected, one of exactly 512
bytes is not. -/
theorem buildRawTransaction_extra_limit_witness :
    (∀ o ∈ [sampleOutput 5],
        ((sampleEnv (worldOf [5] [])).HashFromString o.TransactionHash).isSome) ∧
      (buildRawTransaction (sampleEnv (worldOf [5] [])) [5] [sampleOutput 5]
          [scriptRecipient 5] (memoOfSize 513) sampleUser).outcome =
        .done (.error .extraTooLong) ∧
      (buildRawTransaction (sampleEnv (worldOf [5] [])) [5] [sampleOutput 5]
          [scriptRecipient 5] (memoOfSize 512) sampleUser).outcome ≠
        .done (.error .extraTooLong) :=
  ⟨by decide,
    (buildRawTransaction_extra_limit (sampleEnv (worldOf [5] [])) [5] [sampleOutput 5]
      [scriptRecipient 5] (memoOfSize 513) sampleUser (by decide)).1.mpr (by decide),
    fun h => absurd
      ((buildRawTransaction_extra_limit (sampleEnv (worldOf [5] [])) [5] [sampleOutput 5]
        [scriptRecipient 5] (memoOfSize 512) sampleUser (by decide)).1.mp h) (by decide)⟩

/-- C8 (amended): the calls of `buildRawTransaction` are ghost-key calls only;
their position indices, in call order, are strictly increasing (so pairwise
distinct) and are positions of script recipients in the WHOLE recipient list,
withdrawal recipients counted; when the build succeeds they are exactly the
positions of all script recipients, one call per script recipient and none for
a withdrawal recipient; they are 0, 1, ..., N-1 when no recipient is a
withdrawal. -/
theorem buildRawTransaction_ghost_positions (env : Env) (asset : Hash)
    (utxos : List Output) (recipients : List TransactionRecipient) (memo : String)
    (u : SafeUser) :
    (∀ ev ∈ (buildRawTransaction env asset utxos recipients memo u).calls,
        ∃ ma j, ev = Event.ghostKeys ma j) ∧
    List.Pairwise (fun a b => a < b)
      (ghostIndices (buildRawTransaction env asset utxos recipients memo u).calls) ∧
    (∀ j ∈ ghostIndices (buildRawTransaction env asset utxos recipients memo u).calls,
        ∃ r, recipients[j]? = some r ∧ r.Destination = "") ∧
    (∀ tx, (buildRawTransaction env asset utxos recipients memo u).outcome = .done (.ok tx) →
      (∀ j, j ∈ ghostIndices (buildRawTransaction env asset utxos recipients memo u).calls ↔
          ∃ r, recipients[j]? = some r ∧ r.Destination = "") ∧
        (buildRawTransaction env asset utxos recipients memo u).calls.length =
          (recipients.filter fun r => decide (r.Destination = "")).length ∧
        ((∀ r ∈ recipients, r.Destination = "") →
          ghostIndices (buildRawTransaction env asset utxos recipients memo u).calls =
            List.range recipients.length)) := by
  obtain ⟨h1, h2, h3⟩ := buildRawTransaction_calls env asset utxos recipients memo u
  have hmem : ∀ j, j ∈ scriptPositions 0 recipients ↔
      ∃ r, recipients[j]? = some r ∧ r.Destination = "" := by
    intro j
    rw [scriptPositions_mem]
    simp
  refine ⟨h1, ?_, ?_, ?_⟩
  · exact List.Pairwise.sublist h2.sublist (scriptPositions_pairwise recipients 0)
  · intro j hj
    exact (hmem j).mp (h2.subset hj)
  · intro tx htx
    have heq := h3 tx htx
    refine ⟨?_, ?_, ?_⟩
    · intro j
      rw [heq]
      exact hmem j
    · rw [← ghostIndices_length_of_all_ghost _ h1, heq, scriptPositions_length]
    · intro hall
      rw [heq, scriptPositions_all_script recipients 0 hall, List.range_eq_range']

/-- C8 as stated fails when a withdrawal recipient precedes a script recipient:
the build succeeds, there is one script recipient, and the one ghost-key call
carries position 1, not 0. -/
theorem buildRawTransaction_ghost_positions_counterexample :
    (buildRawTransaction (sampleEnv (worldOf [5] [])) [5] [sampleOutput 5]
        [withdrawalRecipient 2, scriptRecipient 3] "hi" sampleUser).outcome =
      .done (.ok sampleTx) ∧
    ([withdrawalRecipient 2, scriptRecipient 3].filter
        fun r => decide (r.Destination = "")).length = 1 ∧
    ghostIndices (buildRawTransaction (sampleEnv (worldOf [5] [])) [5] [sampleOutput 5]
        [withdrawalRecipient 2, scriptRecipient 3] "hi" sampleUser).calls = [1] ∧
    ghostIndices (buildRawTransaction (sampleEnv (worldOf [5] [])) [5] [sampleOutput 5]
        [withdrawalRecipient 2, scriptRecipient 3] "hi" sampleUser).calls ≠ List.range 1 := by
  decide

/-- C9: a successful `buildRawTransaction` reproduces its arguments in order
and without loss: as many inputs as selected outputs, input `i` referencing the
parsed hash and the output index of selected output `i`; as many outputs as
recipients, output `i` carrying the amount of recipient `i`, a withdrawal output
with the destination and tag when the recipient has a destination, else a
script output with the threshold of its mix address and the mask and keys
resolved for it at position `i`. -/
theorem buildRawTransaction_reproduces (env : Env) (asset : Hash) (utxos : List Output)
    (recipients : List TransactionRecipient) (memo : String) (u : SafeUser)
    (tx : common.Transaction)
    (hbuild : (buildRawTransaction env asset utxos recipients memo u).outcome =
      .done (.ok tx)) :
    tx.Asset = asset ∧
    tx.Inputs.length = utxos.length ∧
    (∀ (i : Nat) (o : Output), utxos[i]? = some o →
      ∃ h, env.HashFromString o.TransactionHash = some h ∧
        tx.Inputs[i]? = some { Hash := h, Index := o.OutputIndex }) ∧
    tx.Outputs.length = recipients.length ∧
    (∀ (i : Nat) (r : TransactionRecipient), recipients[i]? = some r →
      ∃ out, tx.Outputs[i]? = some out ∧ IsOutputOf env u i r out) := by
  rw [buildRawTransaction_eq] at hbuild
  cases hin : addInputs env (common.NewTransactionV5 asset) utxos with
  | panicked msg => simp [hin] at hbuild
  | done tx0 =>
      simp only [hin] at hbuild
      by_cases hm : 512 < (stringBytes memo).length
      · simp [if_pos hm] at hbuild
      · simp only [if_neg hm] at hbuild
        obtain ⟨_, a2, a3, _, ins, a5, a6⟩ := addInputs_done env utxos _ _ hin
        obtain ⟨_, b2, b3, _, outs, b5, b6, b7⟩ := addOutputs_ok env u recipients 0 _ tx [] hbuild
        simp only [common.NewTransactionV5, List.nil_append] at a2 a3 a5
        simp only at b2 b3 b5
        rw [a3, List.nil_append] at b5
        rw [a5] at b3
        refine ⟨by rw [b2, a2], by rw [b3, a6.length_eq], ?_, by rw [b5, b6], ?_⟩
        · intro i o hio
          rw [b3]
          have hlen := a6.length_eq
          have hi : i < utxos.length := by
            by_contra hge
            rw [List.getElem?_eq_none (by omega)] at hio
            cases hio
          have hi' : i < ins.length := by omega
          have hrel := List.Forall₂.get a6 hi hi'
          have ho : utxos.get ⟨i, hi⟩ = o := by
            rw [List.getElem?_eq_getElem hi] at hio
            simpa using hio
          rw [ho] at hrel
          refine ⟨(ins.get ⟨i, hi'⟩).Hash, hrel.1, ?_⟩
          rw [List.getElem?_eq_getElem hi', ← hrel.2]
          rfl
        · intro i r hir
          rw [b5]
          obtain ⟨out, ho1, ho2⟩ := b7 i r hir
          rw [Nat.zero_add] at ho2
          exact ⟨out, ho1, ho2⟩

/-- C9 on a concrete build: one unspent output, a withdrawal and a script
recipient. -/
theorem buildRawTransaction_reproduces_witness :
    (buildRawTransaction (sampleEnv (worldOf [5] [])) [5] [sampleOutput 5]
        [withdrawalRecipient 2, scriptRecipient 3] "hi" sampleUser).outcome =
      .done (.ok sampleTx) ∧
    sampleTx.Inputs.length = 1 ∧ sampleTx.Outputs.length = 2 :=
  ⟨by decide,
    (buildRawTransaction_reproduces (sampleEnv (worldOf [5] [])) [5] [sampleOutput 5]
      [withdrawalRecipient 2, scriptRecipient 3] "hi" sampleUser sampleTx (by decide)).2.1,
    (buildRawTransaction_reproduces (sampleEnv (worldOf [5] [])) [5] [sampleOutput 5]
      [withdrawalRecipient 2, scriptRecipient 3] "hi" sampleUser sampleTx
      (by decide)).2.2.2.1⟩

/-! ### The signer -/

/-- The signing loop from input `i` on, over a signature map of the full
length: entries before `i` are kept, and every entry from `i` on becomes the
one-entry map holding, at slot 0, the signature under the sum of the decoded
view key and the spend scalar. -/
theorem signInputs_ok (env : Env) (msg : Hash) (y : edwards25519.Scalar)
    (views : List String) (n : Nat) :
    ∀ (ins : List common.Input) (i : Nat) (sm sm' : List (List (Nat × Signature))),
      i + ins.length = n → sm.length = n →
      signInputs env msg y views i ins sm = .done (.ok sm') →
        sm'.length = n ∧
        (∀ j, j < i → sm'[j]? = sm[j]?) ∧
        (∀ j, i ≤ j → j < n →
          ∃ view viewBytes x, views[j]? = some view ∧
            env.KeyFromString view = .ok viewBytes ∧
            edwards25519.SetCanonicalBytes viewBytes = .ok x ∧
            sm'[j]? = some [(0, env.Sign (edwards25519.Bytes (edwards25519.Add x y)) msg)]) := by
  intro ins
  induction ins with
  | nil =>
      intro i sm sm' hn hlen h
      simp only [signInputs, Run.done.injEq, Except.ok.injEq] at h
      subst h
      simp only [List.length_nil, Nat.add_zero] at hn
      exact ⟨hlen, fun _ _ => rfl, fun j h1 h2 => by omega⟩
  | cons inp rest ih =>
      intro i sm sm' hn hlen h
      simp only [List.length_cons] at hn
      unfold signInputs at h
      cases hv : views[i]? with
      | none => simp [hv] at h
      | some view =>
          simp only [hv] at h
          cases hk : env.KeyFromString view with
          | error e => simp [hk] at h
          | ok viewBytes =>
              simp only [hk] at h
              cases hx : edwards25519.SetCanonicalBytes viewBytes with
              | error e => simp [hx] at h
              | ok x =>
                  simp only [hx] at h
                  obtain ⟨h1, h2, h3⟩ := ih (i + 1) _ sm' (by omega) (by simp [hlen]) h
                  refine ⟨h1, ?_, ?_⟩
                  · intro j hj
                    rw [h2 j (by omega), List.getElem?_set_ne (by omega)]
                  · intro j hj1 hj2
                    by_cases hji : j = i
                    · subst hji
                      refine ⟨view, viewBytes, x, hv, hk, hx, ?_⟩
                      rw [h2 j (by omega), List.getElem?_set_eq_of_lt _ (by omega)]
                    · exact h3 j (by omega) hj2

/-- C10: a successful `signRawTransaction` on a transaction with `n` inputs
changes nothing but the signature map; the map has exactly `n` entries, and
entry `i` holds exactly one signature, at signer slot 0: the signature of the
payload hash of the transaction under the 32-byte encoding of
`(x_i + y) mod groupOrder`, where `x_i` is the canonical scalar decoded from
view key `i` and `y` the clamped scalar of the first 32 bytes of the SHA-512
digest of the spend key. -/
theorem signRawTransaction_signatures (env : Env) (ver ver' : common.VersionedTransaction)
    (views : List String) (spendKey : String)
    (hsign : (signRawTransaction env ver views spendKey).outcome = .done (.ok ver')) :
    ver'.tx = ver.tx ∧
    ver'.SignaturesMap.length = ver.tx.Inputs.length ∧
    ∃ spent, env.KeyFromString spendKey = .ok spent ∧
      ((env.sha512 spent).take 32).length = 32 ∧
      ∀ i, i < ver.tx.Inputs.length →
        ∃ view viewBytes, views[i]? = some view ∧
          env.KeyFromString view = .ok viewBytes ∧
          viewBytes.length = 32 ∧
          edwards25519.leNat viewBytes < edwards25519.groupOrder ∧
          ver'.SignaturesMap[i]? =
            some [(0, env.Sign
              (edwards25519.leBytes32
                ((edwards25519.leNat viewBytes +
                    edwards25519.leNat (edwards25519.clamp ((env.sha512 spent).take 32)) %
                      edwards25519.groupOrder) % edwards25519.groupOrder))
              (env.PayloadHash ver))] := by
  unfold signRawTransaction at hsign
  cases hk : env.KeyFromString spendKey with
  | error e => simp [hk] at hsign
  | ok spent =>
      simp only [hk] at hsign
      cases hy : edwards25519.SetBytesWithClamping ((env.sha512 spent).take 32) with
      | error e => simp [hy] at hsign
      | ok y =>
          simp only [hy] at hsign
          cases hloop : signInputs env (env.PayloadHash ver) y views 0 ver.tx.Inputs
              (List.replicate ver.tx.Inputs.length []) with
          | panicked m => simp [hloop] at hsign
          | done res =>
              cases res with
              | error e => simp [hloop] at hsign
              | ok sm =>
                  simp only [hloop, Run.done.injEq, Except.ok.injEq] at hsign
                  subst hsign
                  obtain ⟨h1, _, h3⟩ := signInputs_ok env (env.PayloadHash ver) y views
                    ver.tx.Inputs.length ver.tx.Inputs 0 _ sm (by simp) (by simp) hloop
                  have hlen32 : ((env.sha512 spent).take 32).length = 32 := by
                    by_contra hne
                    unfold edwards25519.SetBytesWithClamping at hy
                    rw [if_pos hne] at hy
                    cases hy
                  have hyval : y = edwards25519.leNat
                      (edwards25519.clamp ((env.sha512 spent).take 32)) %
                        edwards25519.groupOrder := by
                    unfold edwards25519.SetBytesWithClamping at hy
                    rw [if_neg (not_not.mpr hlen32)] at hy
                    injection hy with hy
                    exact hy.symm
                  refine ⟨rfl, h1, spent, rfl, hlen32, ?_⟩
                  intro i hi
                  obtain ⟨view, viewBytes, x, hv, hkv, hx, hsig⟩ := h3 i (Nat.zero_le _) hi
                  have hvlen : viewBytes.length = 32 := by
                    by_contra hne
                    unfold edwards25519.SetCanonicalBytes at hx
                    rw [if_pos hne] at hx
                    cases hx
                  have hcanon : edwards25519.leNat viewBytes < edwards25519.groupOrder := by
                    by_contra hge
                    unfold edwards25519.SetCanonicalBytes at hx
                    rw [if_neg (not_not.mpr hvlen), if_pos (Nat.not_lt.mp hge)] at hx
                    cases hx
                  have hxval : x = edwards25519.leNat viewBytes := by
                    unfold edwards25519.SetCanonicalBytes at hx
                    rw [if_neg (not_not.mpr hvlen), if_neg (Nat.not_le.mpr hcanon)] at hx
                    injection hx with hx
                    exact hx.symm
                  refine ⟨view, viewBytes, hv, hkv, hvlen, hcanon, ?_⟩
                  rw [hsig, hxval, hyval]
                  rfl

/-- C10 on a concrete transaction with one input: the signer returns the
transaction with the one-entry signature map. -/
theorem signRawTransaction_signatures_witness :
    (signRawTransaction (sampleEnv (worldOf [5] ["v"])) sampleTx.AsVersioned ["v"]
        sampleUser.SpendKey).outcome = .done (.ok sampleSigned) ∧
      sampleSigned.tx = sampleTx.AsVersioned.tx ∧
      sampleSigned.SignaturesMap.length = sampleTx.AsVersioned.tx.Inputs.length :=
  ⟨by decide,
    (signRawTransaction_signatures (sampleEnv (worldOf [5] ["v"])) sampleTx.AsVersioned
      sampleSigned ["v"] sampleUser.SpendKey (by decide)).1,
    (signRawTransaction_signatures (sampleEnv (worldOf [5] ["v"])) sampleTx.AsVersioned
      sampleSigned ["v"] sampleUser.SpendKey (by decide)).2.1⟩

/-- The signing loop runs to the end when every remaining input has a view key
that decodes to a canonical scalar. -/
theorem signInputs_total (env : Env) (msg : Hash) (y : edwards25519.Scalar)
    (views : List String) :
    ∀ (ins : List common.Input) (i : Nat) (sm : List (List (Nat × Signature))),
      (∀ j, i ≤ j → j < i + ins.length →
        ∃ view viewBytes x, views[j]? = some view ∧
          env.KeyFromString view = .ok viewBytes ∧
          edwards25519.SetCanonicalBytes viewBytes = .ok x) →
      ∃ sm', signInputs env msg y views i ins sm = .done (.ok sm') := by
  intro ins
  induction ins with
  | nil => intro i sm _; exact ⟨sm, rfl⟩
  | cons inp rest ih =>
      intro i sm h
      obtain ⟨view, viewBytes, x, hv, hk, hx⟩ := h i (le_refl _) (by simp)
      unfold signInputs
      simp only [hv, hk, hx]
      apply ih
      intro j hj1 hj2
      exact h j (by omega) (by simp only [List.length_cons]; omega)

/-- With a spend key that decodes, a digest of at least 32 bytes and, for each
input, a view key that decodes to a canonical scalar, `signRawTransaction`
returns a signed transaction. -/
theorem signRawTransaction_total (env : Env) (ver : common.VersionedTransaction)
    (views : List String) (spendKey : String) (spent : Key)
    (hspend : env.KeyFromString spendKey = .ok spent)
    (hdigest : 32 ≤ (env.sha512 spent).length)
    (hviews : ∀ j, j < ver.tx.Inputs.length →
      ∃ view viewBytes x, views[j]? = some view ∧
        env.KeyFromString view = .ok viewBytes ∧
        edwards25519.SetCanonicalBytes viewBytes = .ok x) :
    ∃ ver', (signRawTransaction env ver views spendKey).outcome = .done (.ok ver') := by
  have hlen : ((env.sha512 spent).take 32).length = 32 := by
    rw [List.length_take]; omega
  obtain ⟨sm, hsm⟩ := signInputs_total env (env.PayloadHash ver)
    (edwards25519.leNat (edwards25519.clamp ((env.sha512 spent).take 32)) %
      edwards25519.groupOrder) views ver.tx.Inputs 0
    (List.replicate ver.tx.Inputs.length [])
    (fun j _ hj => hviews j (by omega))
  refine ⟨{ ver with SignaturesMap := sm }, ?_⟩
  unfold signRawTransaction
  simp only [hspend]
  unfold edwards25519.SetBytesWithClamping
  rw [if_neg (not_not.mpr hlen)]
  simp only [hsm]

/-! ### The pipeline -/

theorem requestUnspentOutputs_calls (env : Env) (assetId : String)
    (recipients : List TransactionRecipient) (u : SafeUser) :
    (requestUnspentOutputsForRecipients env assetId recipients u).calls =
      [Event.listUnspentOutputs (env.HashMembers [u.UserId]) 1 assetId] := by
  unfold requestUnspentOutputsForRecipients
  simp only []
  split <;> rfl

theorem verifyRawTransactionBySequencer_calls (env : Env) (traceId : String)
    (ver : common.VersionedTransaction) (u : SafeUser) :
    (verifyRawTransactionBySequencer env traceId ver u).calls =
      [Event.verify traceId (env.marshalHex ver)] := rfl

theorem sendRawTransactionToSequencer_calls (env : Env) (traceId : String)
    (ver : common.VersionedTransaction) (u : SafeUser) :
    (sendRawTransactionToSequencer env traceId ver u).calls =
      [Event.submit traceId (env.marshalHex ver)] := rfl

/-- C5: when the verify call succeeds and reports a state other than `unspent`,
`SendTransaction` returns the assembled transaction, unsigned, with no error,
and its calls are the listing, the builder's ghost-key calls and the verify
call: no invocation of the signer, no submit call, whatever the view keys. -/
theorem SendTransaction_stops_when_not_unspent (env : Env) (assetId : String)
    (recipients : List TransactionRecipient) (traceId : String) (memo : String)
    (u : SafeUser) (utxos : List Output) (changeAmount : Nat) (tx : common.Transaction)
    (str : SequencerTransactionRequest)
    (hreach : ReachesVerify env assetId recipients traceId memo u utxos changeAmount tx
      (.ok (some str)))
    (hstate : str.State ≠ "unspent") :
    (SendTransaction env assetId recipients traceId memo u).outcome =
        .done { value := some tx.AsVersioned, err := none } ∧
      tx.AsVersioned.SignaturesMap = [] ∧
      ∀ ev ∈ (SendTransaction env assetId recipients traceId memo u).calls,
        ev.isSign = false ∧ ev.isSubmit = false := by
  obtain ⟨asset, hasset, hsel, hbuild, hverify⟩ := hreach
  unfold resolvedAssetId at hasset hsel
  unfold recipientsWithChange at hbuild
  have hc := (buildRawTransaction_calls env asset utxos
    (if changeAmount > 0 then recipients ++ [changeRecipient env u changeAmount]
      else recipients) memo u).1
  unfold SendTransaction
  simp only [hasset, hsel, hbuild, hverify, if_pos hstate, requestUnspentOutputs_calls,
    verifyRawTransactionBySequencer_calls]
  refine ⟨trivial, rfl, ?_⟩
  intro ev hev
  simp only [List.mem_append, List.mem_singleton] at hev
  rcases hev with (hev | hev) | hev
  · subst hev; exact ⟨rfl, rfl⟩
  · obtain ⟨ma, j, h⟩ := hc ev hev
    subst h; exact ⟨rfl, rfl⟩
  · subst hev; exact ⟨rfl, rfl⟩

/-- C5 on a concrete run: the sequencer reports `spent` and sends three view
keys for a transaction with one input; the unsigned transaction comes back. -/
theorem SendTransaction_stops_when_not_unspent_witness :
    (SendTransaction (sampleEnv spentWorld) "asset"
        [withdrawalRecipient 2, scriptRecipient 3] "trace" "hi" sampleUser).outcome =
      .done { value := some sampleTx.AsVersioned, err := none } :=
  (SendTransaction_stops_when_not_unspent (sampleEnv spentWorld) "asset"
    [withdrawalRecipient 2, scriptRecipient 3] "trace" "hi" sampleUser [sampleOutput 5] 0
    sampleTx { RawTransaction := "", State := "spent", Views := ["a", "b", "c"] }
    ⟨[5], by decide, by decide, by decide, by decide⟩ (by decide)).1

/-- C3: when the verify call reports `unspent` with a number of view keys other
than the number of inputs, `SendTransaction` returns the view-key-count error
and no transaction, and its calls contain no invocation of the signer and no
submit call. -/
theorem SendTransaction_view_key_count (env : Env) (assetId : String)
    (recipients : List TransactionRecipient) (traceId : String) (memo : String)
    (u : SafeUser) (utxos : List Output) (changeAmount : Nat) (tx : common.Transaction)
    (str : SequencerTransactionRequest)
    (hreach : ReachesVerify env assetId recipients traceId memo u utxos changeAmount tx
      (.ok (some str)))
    (hstate : str.State = "unspent")
    (hcount : str.Views.length ≠ tx.Inputs.length) :
    (SendTransaction env assetId recipients traceId memo u).outcome =
        .done { value := none,
                err := some (.invalidViewKeysCount str.Views.length tx.Inputs.length) } ∧
      ∀ ev ∈ (SendTransaction env assetId recipients traceId memo u).calls,
        ev.isSign = false ∧ ev.isSubmit = false := by
  obtain ⟨asset, hasset, hsel, hbuild, hverify⟩ := hreach
  unfold resolvedAssetId at hasset hsel
  unfold recipientsWithChange at hbuild
  have hc := (buildRawTransaction_calls env asset utxos
    (if changeAmount > 0 then recipients ++ [changeRecipient env u changeAmount]
      else recipients) memo u).1
  have hstate' : ¬ str.State ≠ "unspent" := not_not.mpr hstate
  have hcount' : str.Views.length ≠ tx.AsVersioned.tx.Inputs.length := hcount
  unfold SendTransaction
  simp only [hasset, hsel, hbuild, hverify, if_neg hstate', if_pos hcount',
    requestUnspentOutputs_calls, verifyRawTransactionBySequencer_calls]
  refine ⟨rfl, ?_⟩
  intro ev hev
  simp only [List.mem_append, List.mem_singleton] at hev
  rcases hev with (hev | hev) | hev
  · subst hev; exact ⟨rfl, rfl⟩
  · obtain ⟨ma, j, h⟩ := hc ev hev
    subst h; exact ⟨rfl, rfl⟩
  · subst hev; exact ⟨rfl, rfl⟩

/-- C3, the example of the specification: three inputs and a verify response
with two view keys. -/
theorem SendTransaction_view_key_count_witness :
    (SendTransaction (sampleEnv (worldOf [1, 1, 1] ["a", "b"])) "asset"
        [scriptRecipient 3] "trace" "hi" sampleUser).outcome =
      .done { value := none, err := some (.invalidViewKeysCount 2 3) } :=
  (SendTransaction_view_key_count (sampleEnv (worldOf [1, 1, 1] ["a", "b"])) "asset"
    [scriptRecipient 3] "trace" "hi" sampleUser
    [sampleOutput 1, sampleOutput 1, sampleOutput 1] 0 sampleTx3
    { RawTransaction := "", State := "unspent", Views := ["a", "b"] }
    ⟨[5], by decide, by decide, by decide, by decide⟩ (by decide) (by decide)).1

/-- C4 (amended): when the submit call succeeds and the raw transaction it
echoes differs from the hex encoding of the signed transaction sent,
`SendTransaction` reports no success and returns nothing, neither a transaction
nor an error: the process panics with the echoed raw transaction. -/
theorem SendTransaction_echo_mismatch_panics (env : Env) (assetId : String)
    (recipients : List TransactionRecipient) (traceId : String) (memo : String)
    (u : SafeUser) (utxos : List Output) (changeAmount : Nat) (tx : common.Transaction)
    (str echoed : SequencerTransactionRequest) (signed : common.VersionedTransaction)
    (hreach : ReachesVerify env assetId recipients traceId memo u utxos changeAmount tx
      (.ok (some str)))
    (hstate : str.State = "unspent")
    (hcount : str.Views.length = tx.Inputs.length)
    (hsign : (signRawTransaction env tx.AsVersioned str.Views u.SpendKey).outcome =
      .done (.ok signed))
    (hsend : (sendRawTransactionToSequencer env traceId signed u).outcome =
      .done (.ok (some echoed)))
    (hecho : env.marshalHex signed ≠ echoed.RawTransaction) :
    (SendTransaction env assetId recipients traceId memo u).outcome =
        .panicked echoed.RawTransaction ∧
      ∀ reply, (SendTransaction env assetId recipients traceId memo u).outcome ≠
        .done reply := by
  obtain ⟨asset, hasset, hsel, hbuild, hverify⟩ := hreach
  unfold resolvedAssetId at hasset hsel
  unfold recipientsWithChange at hbuild
  have hstate' : ¬ str.State ≠ "unspent" := not_not.mpr hstate
  have hcount' : ¬ str.Views.length ≠ tx.AsVersioned.tx.Inputs.length := not_not.mpr hcount
  have hout : (SendTransaction env assetId recipients traceId memo u).outcome =
      .panicked echoed.RawTransaction := by
    unfold SendTransaction
    simp only [hasset, hsel, hbuild, hverify, if_neg hstate', if_neg hcount', hsign, hsend,
      if_pos hecho]
  refine ⟨hout, ?_⟩
  intro reply h
  rw [hout] at h
  cases h

/-- C4 on a concrete run: the sequencer echoes `s!` for the raw transaction
`s`, and the call panics with `s!`. -/
theorem SendTransaction_echo_mismatch_panics_witness :
    (SendTransaction (sampleEnv tamperWorld) "asset"
        [withdrawalRecipient 2, scriptRecipient 3] "trace" "hi" sampleUser).outcome =
      .panicked "s!" :=
  (SendTransaction_echo_mismatch_panics (sampleEnv tamperWorld) "asset"
    [withdrawalRecipient 2, scriptRecipient 3] "trace" "hi" sampleUser [sampleOutput 5] 0
    sampleTx { RawTransaction := "!", State := "unspent", Views := ["v"] }
    { RawTransaction := "s!", State := "unspent", Views := ["v"] } sampleSigned
    ⟨[5], by decide, by decide, by decide, by decide⟩ (by decide) (by decide) (by decide)
    (by decide) (by decide)).1

/-- C4 as stated fails: the submit call succeeds, the echoed raw transaction
differs from the one sent, and `SendTransaction` returns no error result, it
panics. -/
theorem SendTransaction_echo_mismatch_counterexample :
    (sendRawTransactionToSequencer (sampleEnv tamperWorld) "trace" sampleSigned
        sampleUser).outcome =
      .done (.ok (some { RawTransaction := "s!", State := "unspent", Views := ["v"] })) ∧
    (sampleEnv tamperWorld).marshalHex sampleSigned ≠ "s!" ∧
    (SendTransaction (sampleEnv tamperWorld) "asset"
        [withdrawalRecipient 2, scriptRecipient 3] "trace" "hi" sampleUser).outcome =
      .panicked "s!" ∧
    ¬ ∃ e, (SendTransaction (sampleEnv tamperWorld) "asset"
        [withdrawalRecipient 2, scriptRecipient 3] "trace" "hi" sampleUser).outcome =
      .done { value := none, err := some e } := by
  have hout : (SendTransaction (sampleEnv tamperWorld) "asset"
      [withdrawalRecipient 2, scriptRecipient 3] "trace" "hi" sampleUser).outcome =
        .panicked "s!" := by decide
  refine ⟨by decide, by decide, hout, ?_⟩
  rintro ⟨e, he⟩
  rw [hout] at he
  cases he

/-- With a memo of more than 512 bytes the builder makes no call, and it ends
in the extra-too-long error unless the input loop panics first. -/
theorem buildRawTransaction_long_memo (env : Env) (asset : Hash) (utxos : List Output)
    (recipients : List TransactionRecipient) (memo : String) (u : SafeUser)
    (hmemo : 512 < (stringBytes memo).length) :
    (buildRawTransaction env asset utxos recipients memo u).calls = [] ∧
      ((∃ m, (buildRawTransaction env asset utxos recipients memo u).outcome = .panicked m) ∨
        (buildRawTransaction env asset utxos recipients memo u).outcome =
          .done (.error .extraTooLong)) ∧
      ((∀ o ∈ utxos, (env.HashFromString o.TransactionHash).isSome) →
        (buildRawTransaction env asset utxos recipients memo u).outcome =
          .done (.error .extraTooLong)) := by
  rw [buildRawTransaction_eq]
  cases hin : addInputs env (common.NewTransactionV5 asset) utxos with
  | panicked msg =>
      refine ⟨rfl, Or.inl ⟨msg, rfl⟩, ?_⟩
      intro hwf
      obtain ⟨tx0, h0⟩ := addInputs_total env utxos (common.NewTransactionV5 asset) hwf
      rw [h0] at hin
      cases hin
  | done tx0 =>
      simp only [if_pos hmemo]
      exact ⟨trivial, Or.inr trivial, fun _ => trivial⟩

/-- C6 (amended): a call of `SendTransaction` with a memo of more than 512
bytes never returns a transaction and never reaches the ghost-key request, the
verify call, the signer or the submit call; the only call it can have made is
the unspent-output listing, which comes before the memo is looked at. When the
asset id is valid, selection succeeds and the selected outputs have
well-formed hashes, it fails with the extra-too-long error after exactly that
one listing call. -/
theorem SendTransaction_long_memo (env : Env) (assetId : String)
    (recipients : List TransactionRecipient) (traceId : String) (memo : String)
    (u : SafeUser) (hmemo : 512 < (stringBytes memo).length) :
    (∀ ev ∈ (SendTransaction env assetId recipients traceId memo u).calls,
        ev = Event.listUnspentOutputs (env.HashMembers [u.UserId]) 1
          (resolvedAssetId env assetId)) ∧
    (SendTransaction env assetId recipients traceId memo u).calls.length ≤ 1 ∧
    (∀ reply, (SendTransaction env assetId recipients traceId memo u).outcome = .done reply →
        reply.value = none ∧ reply.err ≠ none) ∧
    (∀ asset utxos changeAmount,
        env.HashFromString (resolvedAssetId env assetId) = some asset →
        (requestUnspentOutputsForRecipients env (resolvedAssetId env assetId) recipients
            u).outcome = .done (.ok (utxos, changeAmount)) →
        (∀ o ∈ utxos, (env.HashFromString o.TransactionHash).isSome) →
          (SendTransaction env assetId recipients traceId memo u).outcome =
              .done { value := none, err := some .extraTooLong } ∧
            (SendTransaction env assetId recipients traceId memo u).calls =
              [Event.listUnspentOutputs (env.HashMembers [u.UserId]) 1
                (resolvedAssetId env assetId)]) := by
  unfold resolvedAssetId
  cases hasset : env.HashFromString
      (if env.uuidString assetId = assetId then env.sha256String assetId else assetId) with
  | none =>
      unfold SendTransaction
      simp only [hasset]
      refine ⟨by simp, by simp, ?_, ?_⟩
      · intro reply h
        simp only [Run.done.injEq] at h
        subst h
        simp
      · intro asset utxos changeAmount h
        cases h
  | some asset =>
      cases hsel : (requestUnspentOutputsForRecipients env
          (if env.uuidString assetId = assetId then env.sha256String assetId else assetId)
          recipients u).outcome with
      | panicked m =>
          unfold SendTransaction
          simp only [hasset, hsel, requestUnspentOutputs_calls]
          refine ⟨by simp, by simp, by simp, ?_⟩
          intro asset' utxos changeAmount _ h
          cases h
      | done res =>
          cases res with
          | error e =>
              have hne : ∀ utxos changeAmount, (Run.done (Except.error e) :
                  Run (Except Error (List Output × Nat))) ≠ .done (.ok (utxos, changeAmount)) := by
                intro _ _ h
                cases h
              unfold SendTransaction
              simp only [hasset, hsel, requestUnspentOutputs_calls]
              refine ⟨by simp, by simp, ?_, ?_⟩
              · intro reply h
                simp only [Run.done.injEq] at h
                subst h
                simp
              · intro asset' utxos changeAmount _ h
                exact absurd h (hne utxos changeAmount)
          | ok sel =>
              obtain ⟨utxos, changeAmount⟩ := sel
              obtain ⟨hb1, hb2, hb3⟩ := buildRawTransaction_long_memo env asset utxos
                (if changeAmount > 0 then recipients ++ [changeRecipient env u changeAmount]
                  else recipients) memo u hmemo
              have hcalls : (SendTransaction env assetId recipients traceId memo u).calls =
                  [Event.listUnspentOutputs (env.HashMembers [u.UserId]) 1
                    (if env.uuidString assetId = assetId then env.sha256String assetId
                      else assetId)] := by
                unfold SendTransaction
                rcases hb2 with ⟨m, hb2⟩ | hb2 <;>
                  simp only [hasset, hsel, hb1, hb2, requestUnspentOutputs_calls,
                    List.append_nil]
              have hout : ∀ reply,
                  (SendTransaction env assetId recipients traceId memo u).outcome =
                    .done reply → reply = { value := none, err := some .extraTooLong } := by
                intro reply
                unfold SendTransaction
                rcases hb2 with ⟨m, hb2⟩ | hb2
                · simp only [hasset, hsel, hb1, hb2]
                  intro h
                  cases h
                · simp only [hasset, hsel, hb1, hb2]
                  intro h
                  injection h with h
                  exact h.symm
              refine ⟨?_, ?_, ?_, ?_⟩
              · intro ev hev
                rw [hcalls] at hev
                simpa using hev
              · rw [hcalls]; simp
              · intro reply h
                rw [hout reply h]
                simp
              · intro asset' utxos' changeAmount' ha hs hwf
                injection ha with ha
                injection hs with hs
                injection hs with hs
                injection hs with hs1 hs2
                subst ha hs1 hs2
                refine ⟨?_, hcalls⟩
                unfold SendTransaction
                simp only [hasset, hsel, hb1, hb3 hwf]

set_option maxRecDepth 100000 in
/-- C6 on a concrete run: a memo of 513 bytes. -/
theorem SendTransaction_long_memo_witness :
    (SendTransaction (sampleEnv (worldOf [5, 3, 2] ["v", "v"])) "asset" [scriptRecipient 6]
        "trace" (memoOfSize 513) sampleUser).calls.length ≤ 1 :=
  (SendTransaction_long_memo (sampleEnv (worldOf [5, 3, 2] ["v", "v"])) "asset"
    [scriptRecipient 6] "trace" (memoOfSize 513) sampleUser (by decide)).2.1

set_option maxRecDepth 100000 in
/-- C6 as stated fails: with a memo of 513 bytes the call fails with the
extra-too-long error, but by then the unspent-output listing has been called. -/
theorem SendTransaction_long_memo_counterexample :
    512 < (stringBytes (memoOfSize 513)).length ∧
    (SendTransaction (sampleEnv (worldOf [5, 3, 2] ["v", "v"])) "asset" [scriptRecipient 6]
        "trace" (memoOfSize 513) sampleUser).outcome =
      .done { value := none, err := some .extraTooLong } ∧
    (SendTransaction (sampleEnv (worldOf [5, 3, 2] ["v", "v"])) "asset" [scriptRecipient 6]
        "trace" (memoOfSize 513) sampleUser).calls =
      [Event.listUnspentOutputs "u" 1 "asset"] ∧
    (SendTransaction (sampleEnv (worldOf [5, 3, 2] ["v", "v"])) "asset" [scriptRecipient 6]
        "trace" (memoOfSize 513) sampleUser).calls ≠ [] := by
  decide

/-! ### Change -/

/-- A successful selection covers the target, and its change is the excess of
the selected amounts over the target. -/
theorem requestUnspentOutputs_ok_inv (env : Env) (assetId : String)
    (recipients : List TransactionRecipient) (u : SafeUser) (utxos : List Output)
    (changeAmount : Nat)
    (hsel : (requestUnspentOutputsForRecipients env assetId recipients u).outcome =
      .done (.ok (utxos, changeAmount))) :
    targetAmount env recipients ≤ (utxos.map (outputAmount env)).sum ∧
      changeAmount = (utxos.map (outputAmount env)).sum - targetAmount env recipients := by
  have hT : sumRecipients env 0 recipients = targetAmount env recipients := by
    rw [sumRecipients_eq]; omega
  unfold requestUnspentOutputsForRecipients at hsel
  cases hlist : env.ListUnspentOutputs (env.HashMembers [u.UserId]) 1 assetId u with
  | error e => simp [hlist] at hsel
  | ok O =>
      simp only [hlist, hT, Run.done.injEq] at hsel
      have h0 : prefixAmount env O 0 = 0 := by simp [prefixAmount]
      rcases selectOutputs_scan env O (targetAmount env recipients) O 0 rfl with
        ⟨k, _, _, hk3, _, hk5⟩ | ⟨_, hres⟩
      · rw [h0] at hk5
        rw [hk5] at hsel
        split at hsel
        · cases hsel
        · injection hsel with hsel
          injection hsel with hsel
          injection hsel with h1 h2
          subst h1 h2
          exact ⟨hk3, rfl⟩
      · rw [h0] at hres
        rw [hres] at hsel
        cases hsel

/-- A recipient loop that runs to the end appends the recipients' amounts. -/
theorem addOutputs_amounts (env : Env) (u : SafeUser) :
    ∀ (rs : List TransactionRecipient) (i : Nat) (tx tx' : common.Transaction)
      (calls : List Event),
      (addOutputs env u i rs tx calls).outcome = .done (.ok tx') →
        tx'.Outputs.map (fun o => o.Amount) =
          tx.Outputs.map (fun o => o.Amount) ++ rs.map (recipientAmount env) := by
  intro rs
  induction rs with
  | nil =>
      intro i tx tx' calls h
      simp only [addOutputs, Run.done.injEq, Except.ok.injEq] at h
      subst h
      simp
  | cons r rest ih =>
      intro i tx tx' calls h
      unfold addOutputs at h
      by_cases hd : r.Destination ≠ ""
      · simp only [if_pos hd] at h
        rw [ih _ _ _ _ h]
        simp [withdrawalOutput, recipientAmount]
      · simp only [if_neg hd] at h
        cases hma : env.NewMixAddressFromString r.MixAddress with
        | none => simp [hma] at h
        | some ma =>
            simp only [hma] at h
            cases hg : env.RequestOrGenerateGhostKeys ma i u with
            | error e => simp [hg] at h
            | ok ghost =>
                simp only [hg] at h
                cases hk : env.KeyFromString ghost.Mask with
                | error e => simp [hk] at h
                | ok mask =>
                    simp only [hk] at h
                    rw [ih _ _ _ _ h]
                    simp [scriptOutput, recipientAmount]

/-- The output amounts of a built transaction are the recipients' amounts. -/
theorem buildRawTransaction_amounts (env : Env) (asset : Hash) (utxos : List Output)
    (recipients : List TransactionRecipient) (memo : String) (u : SafeUser)
    (tx : common.Transaction)
    (hbuild : (buildRawTransaction env asset utxos recipients memo u).outcome =
      .done (.ok tx)) :
    tx.Outputs.map (fun o => o.Amount) = recipients.map (recipientAmount env) := by
  rw [buildRawTransaction_eq] at hbuild
  cases hin : addInputs env (common.NewTransactionV5 asset) utxos with
  | panicked msg => simp [hin] at hbuild
  | done tx0 =>
      simp only [hin] at hbuild
      by_cases hm : 512 < (stringBytes memo).length
      · simp [if_pos hm] at hbuild
      · simp only [if_neg hm] at hbuild
        have h := addOutputs_amounts env u recipients 0 _ tx [] hbuild
        have h0 : tx0.Outputs = [] := (addInputs_done env utxos _ _ hin).2.2.1
        simpa [h0] using h

/-- The signer keeps the transaction. -/
theorem signRawTransaction_tx (env : Env) (ver ver' : common.VersionedTransaction)
    (views : List String) (spendKey : String)
    (hsign : (signRawTransaction env ver views spendKey).outcome = .done (.ok ver')) :
    ver'.tx = ver.tx := by
  unfold signRawTransaction at hsign
  simp only [] at hsign
  split at hsign
  · simp at hsign
  · split at hsign
    · simp at hsign
    · split at hsign
      · simp at hsign
      · simp at hsign
      · simp only [Run.done.injEq, Except.ok.injEq] at hsign
        rw [← hsign]

theorem signRawTransaction_calls (env : Env) (ver : common.VersionedTransaction)
    (views : List String) (spendKey : String) :
    (signRawTransaction env ver views spendKey).calls = [Event.sign views] := by
  unfold signRawTransaction
  simp only []
  split
  · rfl
  · split
    · rfl
    · split <;> rfl

/-- Whatever transaction `SendTransaction` returns, signed or not, is the one
the builder returned for the recipients with the change. -/
theorem SendTransaction_value (env : Env) (assetId : String)
    (recipients : List TransactionRecipient) (traceId : String) (memo : String)
    (u : SafeUser) (asset : Hash) (utxos : List Output) (changeAmount : Nat)
    (hasset : env.HashFromString (resolvedAssetId env assetId) = some asset)
    (hsel : (requestUnspentOutputsForRecipients env (resolvedAssetId env assetId) recipients
      u).outcome = .done (.ok (utxos, changeAmount)))
    (ver : common.VersionedTransaction) (err : Option Error)
    (hout : (SendTransaction env assetId recipients traceId memo u).outcome =
      .done { value := some ver, err := err }) :
    (buildRawTransaction env asset utxos (recipientsWithChange env u recipients changeAmount)
      memo u).outcome = .done (.ok ver.tx) := by
  unfold resolvedAssetId at hasset hsel
  unfold recipientsWithChange
  unfold SendTransaction at hout
  simp only [hasset, hsel] at hout
  cases hb : (buildRawTransaction env asset utxos
      (if changeAmount > 0 then recipients ++ [changeRecipient env u changeAmount]
        else recipients) memo u).outcome with
  | panicked m => simp [hb] at hout
  | done res =>
    cases res with
    | error e => simp [hb] at hout
    | ok tx =>
      simp only [hb] at hout
      cases hv : (verifyRawTransactionBySequencer env traceId tx.AsVersioned u).outcome with
      | panicked m => simp [hv] at hout
      | done vres =>
        cases vres with
        | error e =>
            simp only [hv, Run.done.injEq, Reply.mk.injEq, Option.some.injEq] at hout
            rw [← hout.1]
            rfl
        | ok entry =>
          cases entry with
          | none => simp [hv] at hout
          | some str =>
            simp only [hv] at hout
            by_cases hstate : str.State ≠ "unspent"
            · simp only [if_pos hstate, Run.done.injEq, Reply.mk.injEq,
                Option.some.injEq] at hout
              rw [← hout.1]
              rfl
            · simp only [if_neg hstate] at hout
              by_cases hcount : str.Views.length ≠ tx.AsVersioned.tx.Inputs.length
              · simp [if_pos hcount] at hout
              · simp only [if_neg hcount] at hout
                cases hs : (signRawTransaction env tx.AsVersioned str.Views
                    u.SpendKey).outcome with
                | panicked m => simp [hs] at hout
                | done sres =>
                  cases sres with
                  | error e => simp [hs] at hout
                  | ok signed =>
                    simp only [hs] at hout
                    have htx := signRawTransaction_tx env _ _ _ _ hs
                    cases hsend : (sendRawTransactionToSequencer env traceId signed
                        u).outcome with
                    | panicked m => simp [hsend] at hout
                    | done dres =>
                      cases dres with
                      | error e => simp [hsend] at hout
                      | ok echoed =>
                        cases echoed with
                        | none => simp [hsend] at hout
                        | some echo =>
                          simp only [hsend] at hout
                          by_cases hecho : env.marshalHex signed ≠ echo.RawTransaction
                          · simp [if_pos hecho] at hout
                          · simp only [if_neg hecho, Run.done.injEq, Reply.mk.injEq,
                              Option.some.injEq] at hout
                            rw [← hout.1, htx]
                            rfl

/-- After a successful selection the calls of `SendTransaction` start with
the listing, followed by the calls of the builder on the recipients with the
change. -/
theorem SendTransaction_calls_start (env : Env) (assetId : String)
    (recipients : List TransactionRecipient) (traceId : String) (memo : String)
    (u : SafeUser) (asset : Hash) (utxos : List Output) (changeAmount : Nat)
    (hasset : env.HashFromString (resolvedAssetId env assetId) = some asset)
    (hsel : (requestUnspentOutputsForRecipients env (resolvedAssetId env assetId) recipients
      u).outcome = .done (.ok (utxos, changeAmount))) :
    ∃ rest, (SendTransaction env assetId recipients traceId memo u).calls =
      [Event.listUnspentOutputs (env.HashMembers [u.UserId]) 1 (resolvedAssetId env assetId)] ++
        (buildRawTransaction env asset utxos
          (recipientsWithChange env u recipients changeAmount) memo u).calls ++ rest := by
  have hp : [Event.listUnspentOutputs (env.HashMembers [u.UserId]) 1
        (resolvedAssetId env assetId)] ++
      (buildRawTransaction env asset utxos
        (recipientsWithChange env u recipients changeAmount) memo u).calls <+:
      (SendTransaction env assetId recipients traceId memo u).calls := by
    unfold resolvedAssetId at hasset hsel
    unfold resolvedAssetId recipientsWithChange
    unfold SendTransaction
    simp only [hasset, hsel, requestUnspentOutputs_calls]
    generalize (if env.uuidString assetId = assetId then env.sha256String assetId
      else assetId) = aid
    generalize buildRawTransaction env asset utxos
      (if changeAmount > 0 then recipients ++ [changeRecipient env u changeAmount]
        else recipients) memo u = built
    repeat' split
    all_goals simp [List.append_assoc]
  obtain ⟨rest, hrest⟩ := hp
  exact ⟨rest, hrest.symm⟩

/-- C2: in every call of `SendTransaction` in which selection succeeds, the
selected amounts cover the target and the change is exactly their excess over
it; the builder is run on the recipients followed, exactly when the change is
positive, by one last recipient at the caller's own one-member, threshold-one
address for the change amount; and every transaction so assembled has one
output per such recipient, the output amounts summing exactly to the amounts of
the selected inputs (the amount text of the change being read back as the
change). -/
theorem SendTransaction_change_balance (env : Env) (assetId : String)
    (recipients : List TransactionRecipient) (traceId : String) (memo : String)
    (u : SafeUser) (asset : Hash) (utxos : List Output) (changeAmount : Nat)
    (hasset : env.HashFromString (resolvedAssetId env assetId) = some asset)
    (hsel : (requestUnspentOutputsForRecipients env (resolvedAssetId env assetId) recipients
      u).outcome = .done (.ok (utxos, changeAmount)))
    (hround : 0 < changeAmount →
      env.NewIntegerFromString (env.IntegerString changeAmount) = changeAmount) :
    targetAmount env recipients ≤ (utxos.map (outputAmount env)).sum ∧
    changeAmount = (utxos.map (outputAmount env)).sum - targetAmount env recipients ∧
    ∃ finalRecipients,
      (0 < changeAmount →
        finalRecipients = recipients ++
          [{ MixAddress := env.uuidMixAddressString [u.UserId] 1
             Amount := env.IntegerString changeAmount
             Destination := ""
             Tag := "" }]) ∧
      (changeAmount = 0 → finalRecipients = recipients) ∧
      (∃ rest, (SendTransaction env assetId recipients traceId memo u).calls =
        [Event.listUnspentOutputs (env.HashMembers [u.UserId]) 1
            (resolvedAssetId env assetId)] ++
          (buildRawTransaction env asset utxos finalRecipients memo u).calls ++ rest) ∧
      (∀ ver err, (SendTransaction env assetId recipients traceId memo u).outcome =
          .done { value := some ver, err := err } →
        (buildRawTransaction env asset utxos finalRecipients memo u).outcome =
          .done (.ok ver.tx)) ∧
      (∀ tx, (buildRawTransaction env asset utxos finalRecipients memo u).outcome =
          .done (.ok tx) →
        tx.Outputs.length = finalRecipients.length ∧
          (tx.Outputs.map fun o => o.Amount).sum = (utxos.map (outputAmount env)).sum) := by
  obtain ⟨hcover, hchange⟩ :=
    requestUnspentOutputs_ok_inv env _ recipients u utxos changeAmount hsel
  refine ⟨hcover, hchange, recipientsWithChange env u recipients changeAmount, ?_, ?_,
    SendTransaction_calls_start env assetId recipients traceId memo u asset utxos
      changeAmount hasset hsel,
    fun ver err h => SendTransaction_value env assetId recipients traceId memo u asset utxos
      changeAmount hasset hsel ver err h, ?_⟩
  · intro hpos
    unfold recipientsWithChange changeRecipient
    rw [if_pos hpos]
  · intro hzero
    unfold recipientsWithChange
    rw [if_neg (by omega)]
  · intro tx htx
    have hamounts := buildRawTransaction_amounts env asset utxos _ memo u tx htx
    refine ⟨?_, ?_⟩
    · have := congrArg List.length hamounts
      simpa using this
    · rw [hamounts]
      unfold recipientsWithChange
      by_cases hpos : 0 < changeAmount
      · rw [if_pos hpos]
        simp only [List.map_append, List.sum_append, List.map_cons, List.map_nil,
          List.sum_cons, List.sum_nil, recipientAmount, changeRecipient, hround hpos]
        have : (recipients.map (recipientAmount env)).sum = targetAmount env recipients := rfl
        simp only [recipientAmount] at this
        omega
      · rw [if_neg hpos]
        have : (recipients.map (recipientAmount env)).sum = targetAmount env recipients := rfl
        omega

/-- C2 on a concrete run: outputs 5, 3, 2 and a payment of 6 leave a change
of 2, 6 + 2 = 5 + 3. -/
theorem SendTransaction_change_balance_witness :
    targetAmount (sampleEnv (worldOf [5, 3, 2] ["v", "v"])) [scriptRecipient 6] ≤
        ([sampleOutput 5, sampleOutput 3].map
          (outputAmount (sampleEnv (worldOf [5, 3, 2] ["v", "v"])))).sum ∧
      (2 : Nat) = ([sampleOutput 5, sampleOutput 3].map
          (outputAmount (sampleEnv (worldOf [5, 3, 2] ["v", "v"])))).sum -
        targetAmount (sampleEnv (worldOf [5, 3, 2] ["v", "v"])) [scriptRecipient 6] :=
  ⟨(SendTransaction_change_balance (sampleEnv (worldOf [5, 3, 2] ["v", "v"])) "asset"
      [scriptRecipient 6] "trace" "hi" sampleUser [5] [sampleOutput 5, sampleOutput 3] 2
      (by decide) (by decide) (fun _ => by decide)).1,
    (SendTransaction_change_balance (sampleEnv (worldOf [5, 3, 2] ["v", "v"])) "asset"
      [scriptRecipient 6] "trace" "hi" sampleUser [5] [sampleOutput 5, sampleOutput 3] 2
      (by decide) (by decide) (fun _ => by decide)).2.1⟩

end Bot
